import Mathlib

/-!
Verification of the go-smtp repository's pooled SMTP delivery engine.

This file gives a shallow embedding, in Lean 4, of the parts of the Go
source that the specification's claims are about:

* `domain/email.go` — the `Email` value object, its `Validate` method and
  the builder's `Build` finalizer;
* `pkg/retry` (`config.go`) — the retry configuration, backoff computation,
  the transient/permanent error classifier `IsRetryable` and the bounded
  execution loop `Do`;
* `infrastructure` — `SMTPClient.buildMessage` (the MIME message builder),
  `ConnectionPool.Get/Put/Close` and `SMTPClient.Send`;
* `application/email_service.go` — `EmailService.SendEmail`.

Conventions of the embedding:

* Go strings are Lean `String`s; the byte stream produced by the message
  builder is modelled at rune level as a `List Char` (every string the
  builder emits around user content is ASCII, so rune and byte positions
  agree there).
* Go `time.Duration` values (int64 nanoseconds) and the `float64`
  arithmetic of `calculateBackoff` are modelled over `ℚ` with exact
  arithmetic; `math.Pow` becomes the monoid power on `ℚ`.
* Effects are made explicit: the wall clock values feeding the boundary
  generators, the `Date` header and the `Message-ID` are parameters; the
  outcome of each network call is an oracle parameter; the retry loop's
  `select` between the backoff timer and context cancellation is an
  oracle `cancel : Nat → Bool`.
* Fallible Go functions returning `error` become `Option String` (`none`
  is the `nil` error) carrying the exact `fmt.Errorf` text.
-/

namespace GoSmtp

/-! ## Generic character-stream utilities (CRLF discipline, line splitting)

These are observation functions used to state properties of the byte
stream the message builder produces; they are not part of the Go source.
-/

/-- `true` iff the character list contains neither CR nor LF. -/
def noCRLF (l : List Char) : Bool :=
  l.all fun c => c ≠ '\r' && c ≠ '\n'

/-- One step of the CRLF line splitter: prepend character `c` to an
already-split tail.  A CR prepended to a segment list whose head segment
begins with LF forms a CRLF separator (occurrences of the two-character
sequence CRLF never overlap, so right-to-left processing agrees with the
left-to-right reading of the stream). -/
def crlfStep (c : Char) (acc : List (List Char)) : List (List Char) :=
  match acc with
  | [] => [[c]]
  | l :: ls =>
    match c, l with
    | '\r', '\n' :: t => [] :: t :: ls
    | _, _ => (c :: l) :: ls

/-- Split a character stream at each occurrence of CRLF.  Always returns
at least one (possibly empty) segment; a trailing CRLF yields a final
empty segment.  Lone CR or LF characters do not split. -/
def crlfLines (s : List Char) : List (List Char) :=
  s.foldr crlfStep [[]]

theorem crlfStep_ne_nil (c : Char) (acc : List (List Char)) :
    crlfStep c acc ≠ [] := by
  unfold crlfStep
  split
  · simp
  · split <;> simp

theorem crlfLines_ne_nil (s : List Char) : crlfLines s ≠ [] := by
  induction s with
  | nil => simp [crlfLines]
  | cons c rest ih => exact crlfStep_ne_nil c _

theorem crlfStep_append (c : Char) (l : List Char) (ls L : List (List Char)) :
    crlfStep c ((l :: ls) ++ L) = crlfStep c (l :: ls) ++ L := by
  unfold crlfStep
  simp only [List.cons_append]
  split <;> simp

/-- Processing a stream on top of extra already-closed lines only touches
the head region. -/
theorem foldr_crlfStep_append (a : List Char) (L : List (List Char)) :
    a.foldr crlfStep ([] :: L) = a.foldr crlfStep [[]] ++ L := by
  induction a with
  | nil => simp
  | cons c rest ih =>
    simp only [List.foldr_cons, ih]
    have h := crlfLines_ne_nil rest
    unfold crlfLines at h
    cases hr : rest.foldr crlfStep [[]] with
    | nil => exact absurd hr h
    | cons l ls => exact crlfStep_append c l ls L

/-- Appending an explicit CRLF concatenates the line decompositions. -/
theorem crlfLines_append (a b : List Char) :
    crlfLines (a ++ '\r' :: '\n' :: b) = crlfLines a ++ crlfLines b := by
  unfold crlfLines
  rw [List.foldr_append]
  simp only [List.foldr_cons]
  have hb := crlfLines_ne_nil b
  unfold crlfLines at hb
  cases hbl : b.foldr crlfStep [[]] with
  | nil => exact absurd hbl hb
  | cons l ls =>
    have h1 : crlfStep '\n' (l :: ls) = ('\n' :: l) :: ls := by
      unfold crlfStep; rfl
    have h2 : crlfStep '\r' (('\n' :: l) :: ls) = [] :: l :: ls := by
      unfold crlfStep; rfl
    rw [h1, h2, foldr_crlfStep_append]

/-- A non-CR character never forms a separator when prepended. -/
theorem crlfStep_cons_of_ne (c : Char) (hc : c ≠ '\r') (l : List Char)
    (ls : List (List Char)) : crlfStep c (l :: ls) = (c :: l) :: ls := by
  unfold crlfStep
  split
  · simp_all
  · split
    · simp_all
    · simp_all

/-- A stream with no CR and no LF is a single line. -/
theorem crlfLines_of_noCRLF (a : List Char) (h : noCRLF a = true) :
    crlfLines a = [a] := by
  induction a with
  | nil => rfl
  | cons c rest ih =>
    simp only [noCRLF, List.all_cons, Bool.and_eq_true, decide_eq_true_eq] at h
    obtain ⟨⟨hc1, hc2⟩, hrest⟩ := h
    have ihr : crlfLines rest = [rest] := ih (by simpa [noCRLF] using hrest)
    unfold crlfLines at ihr ⊢
    simp only [List.foldr_cons, ihr]
    exact crlfStep_cons_of_ne c hc1 rest []

/-- Joining segments with CRLF terminators and re-splitting recovers the
segments (plus the final empty segment after the last terminator). -/
theorem crlfLines_flat (us : List (List Char)) :
    crlfLines (us.flatMap (fun u => u ++ ['\r', '\n'])) =
      us.flatMap crlfLines ++ [[]] := by
  induction us with
  | nil => simp [crlfLines]
  | cons u rest ih =>
    simp only [List.flatMap_cons]
    have : u ++ ['\r', '\n'] ++ rest.flatMap (fun u => u ++ ['\r', '\n']) =
        u ++ '\r' :: '\n' :: rest.flatMap (fun u => u ++ ['\r', '\n']) := by
      simp
    rw [this, crlfLines_append, ih]
    simp

/-- CRLF discipline of a byte stream: every line terminator is the exact
two-character sequence CRLF — equivalently, after splitting at each CRLF
no segment retains a stray CR or LF. -/
def crlfOk (s : List Char) : Bool :=
  (crlfLines s).all noCRLF

/-! ## Base64 (model of Go's `encoding/base64` `StdEncoding`)

The builder uses `base64.StdEncoding.EncodeToString` on attachment bytes
(RFC 4648 standard alphabet, `=` padding).  Bytes are modelled as natural
numbers below 256. -/

/-- The RFC 4648 standard base64 alphabet. -/
def b64Alphabet : List Char :=
  "ABCDEFGHIJKLMNOPQRSTUVWXYZabcdefghijklmnopqrstuvwxyz0123456789+/".data

/-- Character for a 6-bit value. -/
def b64Char (i : Nat) : Char := b64Alphabet.getD i 'A'

/-- `base64.StdEncoding.EncodeToString`: encode bytes three at a time into
four alphabet characters, padding a final group of one or two bytes with
`=`. -/
def b64Encode : List Nat → List Char
  | [] => []
  | [b1] => [b64Char (b1 / 4), b64Char (b1 % 4 * 16), '=', '=']
  | [b1, b2] =>
    [b64Char (b1 / 4), b64Char (b1 % 4 * 16 + b2 / 16), b64Char (b2 % 16 * 4), '=']
  | b1 :: b2 :: b3 :: rest =>
    b64Char (b1 / 4) :: b64Char (b1 % 4 * 16 + b2 / 16) ::
      b64Char (b2 % 16 * 4 + b3 / 64) :: b64Char (b3 % 64) ::
        b64Encode rest

/-- Index of a character in the base64 alphabet (6-bit value). -/
def b64Index (c : Char) : Nat := b64Alphabet.indexOf c

/-- Standard base64 decoding, the inverse observation used to state the
attachment round-trip property. -/
def b64Decode : List Char → List Nat
  | c1 :: c2 :: c3 :: c4 :: rest =>
    if c3 = '=' then [b64Index c1 * 4 + b64Index c2 / 16]
    else if c4 = '=' then
      [b64Index c1 * 4 + b64Index c2 / 16, b64Index c2 % 16 * 16 + b64Index c3 / 4]
    else
      (b64Index c1 * 4 + b64Index c2 / 16) ::
        (b64Index c2 % 16 * 16 + b64Index c3 / 4) ::
          (b64Index c3 % 4 * 64 + b64Index c4) ::
            b64Decode rest
  | _ => []

theorem b64Index_b64Char (i : Nat) (h : i < 64) : b64Index (b64Char i) = i := by
  interval_cases i <;> decide

theorem b64Char_ne_eq (i : Nat) (h : i < 64) : b64Char i ≠ '=' := by
  interval_cases i <;> decide

/-- No character the alphabet lookup can produce is a dash, CR or LF
(`'A'` is the out-of-range default). -/
theorem b64Char_clean (i : Nat) : b64Char i ∉ ['-', '\r', '\n'] := by
  unfold b64Char
  by_cases h : i < b64Alphabet.length
  · have hmem : b64Alphabet.getD i 'A' ∈ b64Alphabet := by
      rw [List.getD_eq_getElem b64Alphabet 'A' h]
      exact List.getElem_mem h
    intro hbad
    have : ∀ c ∈ b64Alphabet, c ∉ ['-', '\r', '\n'] := by decide
    exact this _ hmem hbad
  · rw [List.getD_eq_default _ _ (by omega)]
    decide

/-- Base64 round-trip: decoding an encoding recovers the original bytes. -/
theorem b64Decode_b64Encode (bs : List Nat) (h : ∀ b ∈ bs, b < 256) :
    b64Decode (b64Encode bs) = bs := by
  induction bs using b64Encode.induct with
  | case1 => rfl
  | case2 b1 =>
    have h1 : b1 < 256 := h b1 (by simp)
    unfold b64Encode b64Decode
    rw [if_pos rfl]
    rw [b64Index_b64Char _ (by omega), b64Index_b64Char _ (by omega)]
    simp
    omega
  | case3 b1 b2 =>
    have h1 : b1 < 256 := h b1 (by simp)
    have h2 : b2 < 256 := h b2 (by simp)
    unfold b64Encode b64Decode
    rw [if_neg (b64Char_ne_eq _ (by omega)), if_pos rfl]
    rw [b64Index_b64Char _ (by omega), b64Index_b64Char _ (by omega),
      b64Index_b64Char _ (by omega)]
    simp
    omega
  | case4 b1 b2 b3 rest ih =>
    have h1 : b1 < 256 := h b1 (by simp)
    have h2 : b2 < 256 := h b2 (by simp)
    have h3 : b3 < 256 := h b3 (by simp)
    unfold b64Encode b64Decode
    rw [if_neg (b64Char_ne_eq _ (by omega)), if_neg (b64Char_ne_eq _ (by omega))]
    rw [b64Index_b64Char _ (by omega), b64Index_b64Char _ (by omega),
      b64Index_b64Char _ (by omega), b64Index_b64Char _ (by omega)]
    rw [ih (fun b hb => h b (by simp [hb]))]
    simp
    omega

/-- No character the encoder emits is a dash, CR or LF. -/
theorem b64Encode_clean (bs : List Nat) :
    ∀ c ∈ b64Encode bs, c ∉ ['-', '\r', '\n'] := by
  induction bs using b64Encode.induct with
  | case1 => simp [b64Encode]
  | case2 b1 =>
    unfold b64Encode
    intro c hc
    simp only [List.mem_cons, List.not_mem_nil, or_false] at hc
    rcases hc with h | h | h | h <;> subst h <;>
      first
      | exact b64Char_clean _
      | decide
  | case3 b1 b2 =>
    unfold b64Encode
    intro c hc
    simp only [List.mem_cons, List.not_mem_nil, or_false] at hc
    rcases hc with h | h | h | h <;> subst h <;>
      first
      | exact b64Char_clean _
      | decide
  | case4 b1 b2 b3 rest ih =>
    unfold b64Encode
    intro c hc
    simp only [List.mem_cons] at hc
    rcases hc with h | h | h | h | h
    · subst h; exact b64Char_clean _
    · subst h; exact b64Char_clean _
    · subst h; exact b64Char_clean _
    · subst h; exact b64Char_clean _
    · exact ih c h

/-! ## 76-column wrapping of encoded output

`buildMessage` wraps the base64 text at 76 characters per line with the
loop `for i := 0; i < len(encoded); i += 76 { ... }`.  The fuel argument
(initialised to the list length) keeps the recursion structural. -/

def chunksAux : Nat → List Char → List (List Char)
  | 0, _ => []
  | _, [] => []
  | fuel + 1, c :: rest => (c :: rest.take 75) :: chunksAux fuel (rest.drop 75)

/-- Split the encoded text into consecutive segments of at most 76
characters (the builder's wrapping loop). -/
def chunks76 (l : List Char) : List (List Char) :=
  chunksAux l.length l

theorem chunksAux_join (fuel : Nat) (l : List Char) (h : l.length ≤ fuel) :
    (chunksAux fuel l).flatMap id = l := by
  induction fuel generalizing l with
  | zero =>
    cases l with
    | nil => rfl
    | cons c rest => simp at h
  | succ fuel ih =>
    cases l with
    | nil => rfl
    | cons c rest =>
      simp only [chunksAux, List.flatMap_cons, id]
      rw [ih (rest.drop 75) (by simp at h ⊢; omega)]
      simp [List.take_append_drop]

/-- The concatenation of the wrapped lines is the encoded text. -/
theorem chunks76_join (l : List Char) : (chunks76 l).flatMap id = l :=
  chunksAux_join l.length l le_rfl

theorem chunksAux_short (fuel : Nat) (l : List Char) :
    ∀ chunk ∈ chunksAux fuel l, chunk.length ≤ 76 := by
  induction fuel generalizing l with
  | zero => simp [chunksAux]
  | succ fuel ih =>
    cases l with
    | nil => simp [chunksAux]
    | cons c rest =>
      intro chunk hchunk
      simp only [chunksAux, List.mem_cons] at hchunk
      rcases hchunk with h | h
      · subst h
        simp only [List.length_cons, List.length_take]
        omega
      · exact ih _ chunk h

/-- No wrapped line exceeds 76 characters. -/
theorem chunks76_short (l : List Char) : ∀ chunk ∈ chunks76 l, chunk.length ≤ 76 :=
  chunksAux_short l.length l

theorem chunksAux_mem_sub (fuel : Nat) (l : List Char) :
    ∀ chunk ∈ chunksAux fuel l, ∀ c ∈ chunk, c ∈ l := by
  induction fuel generalizing l with
  | zero => simp [chunksAux]
  | succ fuel ih =>
    cases l with
    | nil => simp [chunksAux]
    | cons x rest =>
      intro chunk hchunk c hc
      simp only [chunksAux, List.mem_cons] at hchunk
      rcases hchunk with h | h
      · subst h
        simp only [List.mem_cons] at hc
        rcases hc with h | h
        · simp [h]
        · exact List.mem_cons_of_mem x (List.mem_of_mem_take h)
      · exact List.mem_cons_of_mem x (List.mem_of_mem_drop (ih _ chunk h c hc))

/-- All characters of a wrapped line occur in the encoded text. -/
theorem chunks76_mem_sub (l : List Char) :
    ∀ chunk ∈ chunks76 l, ∀ c ∈ chunk, c ∈ l :=
  chunksAux_mem_sub l.length l

/-! ## `pkg/retry`: substring matching (`contains`, `containsSubstring`) -/

/-- `containsSubstring` from `config.go`: scan every window of length
`substr.length`. -/
def containsSubstring (s substr : List Char) : Bool :=
  (List.range (s.length - substr.length + 1)).any fun i =>
    (s.drop i).take substr.length = substr

/-- `contains` from `config.go`: length guard around the window scan. -/
def strContains (s substr : List Char) : Bool :=
  decide (substr.length ≤ s.length) &&
    (s = substr || (decide (substr.length < s.length) && containsSubstring s substr))

/-! ## `domain/email.go`: the Email model and its validation -/

/-- `domain.Priority` (`PriorityLow`, `PriorityNormal`, `PriorityHigh`). -/
inductive Priority where
  | low
  | normal
  | high
deriving DecidableEq

/-- `domain.EmailStatus` is a string type; the constants below mirror the
Go declarations. -/
def StatusPending : String := "pending"

def StatusSending : String := "sending"

def StatusSent : String := "sent"

def StatusFailed : String := "failed"

/-- `domain.Attachment`: filename, content type and opaque byte payload
(bytes as naturals below 256). -/
structure Attachment where
  Filename : String
  ContentType : String
  Data : List Nat
deriving DecidableEq

/-- `domain.Email`.  `Headers` is Go's `map[string]string`; it is modelled
as an association list (Go's map iteration order is unspecified, the list
order stands for one such order).  `CreatedAt` is the creation timestamp
in Unix nanoseconds. -/
structure Email where
  ID : String
  From : String
  To : List String
  Cc : List String
  Bcc : List String
  Subject : String
  TextBody : String
  HTMLBody : String
  Attachments : List Attachment
  Headers : List (String × String)
  Priority : Priority
  CreatedAt : Nat
  Status : String
  Attempts : Nat
  LastError : String
deriving DecidableEq

/-- Character class `[a-zA-Z0-9._%+\-]` of the local part. -/
def isLocalChar (c : Char) : Bool :=
  c.isAlpha || c.isDigit || c = '.' || c = '_' || c = '%' || c = '+' || c = '-'

/-- Character class `[a-zA-Z0-9.\-]` of the domain part. -/
def isDomainChar (c : Char) : Bool :=
  c.isAlpha || c.isDigit || c = '.' || c = '-'

/-- Match of the anchored tail `[a-zA-Z0-9.\-]+\.[a-zA-Z]{2,}$`: some split
into a non-empty run of domain characters, a literal dot, and at least two
letters. -/
def matchDomainTail (t : List Char) : Bool :=
  (List.range t.length).any fun i =>
    decide (1 ≤ i) && (t.take i).all isDomainChar &&
      match t.drop i with
      | '.' :: v => decide (2 ≤ v.length) && v.all fun c => c.isAlpha
      | _ => false

/-- `isValidEmail` from `domain/email.go`: whether the address matches the
anchored regular expression `^[a-zA-Z0-9._%+\-]+@[a-zA-Z0-9.\-]+\.[a-zA-Z]{2,}$`
(a match is some admissible split of the string, which is what
`regexp.MatchString` decides for this expression; all classes are ASCII,
so the rune-level reading agrees with Go's byte-level one). -/
def isValidEmail (email : String) : Bool :=
  let cs := email.data
  (List.range cs.length).any fun i =>
    decide (1 ≤ i) && (cs.take i).all isLocalChar &&
      match cs.drop i with
      | '@' :: t => matchDomainTail t
      | _ => false

/-- `Email.Validate` from `domain/email.go`: returns the `nil` error
(`none`) exactly when every check passes; the checks run in source order
and only inspect `From`, `To`, `Subject` and the two bodies. -/
def Email.Validate (e : Email) : Option String :=
  if e.From = "" then some "from address is required"
  else if !isValidEmail e.From then some ("invalid from address: " ++ e.From)
  else if e.To.isEmpty then some "at least one recipient is required"
  else
    match e.To.find? (fun addr => !isValidEmail addr) with
    | some addr => some ("invalid to address: " ++ addr)
    | none =>
      if e.Subject = "" then some "subject is required"
      else if e.TextBody = "" && e.HTMLBody = "" then
        some "at least one body (text or HTML) is required"
      else none

/-- `EmailBuilder.Build`: return the accumulated email if `Validate`
passes, otherwise fail with the validation error. -/
def EmailBuilder.Build (e : Email) : Except String Email :=
  match e.Validate with
  | some err => .error err
  | none => .ok e

/-! ## `pkg/retry`: configuration, backoff, classification and the loop

Durations are rationals counting nanoseconds (`time.Duration` is int64
nanoseconds; `calculateBackoff` converts through `float64`, modelled here
by exact rational arithmetic).  `MaxAttempts` is a natural number: the Go
loop `for attempt := 1; attempt <= config.MaxAttempts; attempt++` runs
zero times for any non-positive `MaxAttempts`, which `0` represents. -/

/-- `retry.Config`. -/
structure RetryConfig where
  MaxAttempts : Nat
  InitialDelay : ℚ
  MaxDelay : ℚ
  Multiplier : ℚ
deriving DecidableEq

/-- `retry.DefaultConfig()`: 5 attempts, 1s initial delay, 30s cap,
multiplier 2 (durations in nanoseconds). -/
def defaultRetryConfig : RetryConfig where
  MaxAttempts := 5
  InitialDelay := 1000000000
  MaxDelay := 30000000000
  Multiplier := 2

/-- `calculateBackoff`: `initialDelay * multiplier^(attempt-1)`, capped at
`maxDelay`. -/
def calculateBackoff (attempt : Nat) (config : RetryConfig) : ℚ :=
  let delay := config.InitialDelay * config.Multiplier ^ (attempt - 1)
  if delay > config.MaxDelay then config.MaxDelay else delay

/-- The `temporaryErrors` table of `IsRetryable`. -/
def temporaryErrors : List String :=
  ["421", "450", "451", "452", "timeout", "connection refused",
    "connection reset", "temporary failure"]

/-- The `permanentErrors` table of `IsRetryable`. -/
def permanentErrors : List String :=
  ["550", "551", "552", "553", "554"]

/-- The first loop of `IsRetryable`: some temporary indicator occurs in
the error text. -/
def hasTemporaryIndicator (errStr : String) : Bool :=
  temporaryErrors.any fun t => strContains errStr.data t.data

/-- The second loop of `IsRetryable`: some permanent indicator occurs in
the error text. -/
def hasPermanentIndicator (errStr : String) : Bool :=
  permanentErrors.any fun p => strContains errStr.data p.data

/-- `retry.IsRetryable`: scan the error text first for temporary
indicators (match ⇒ retry), then for permanent ones (match ⇒ do not
retry); unknown errors default to retryable. -/
def IsRetryable (errStr : String) : Bool :=
  if hasTemporaryIndicator errStr then true
  else if hasPermanentIndicator errStr then false
  else true

/-- Result of one run of `retry.Do`: the returned error (`none` on
success), the number of times the operation was invoked, and the backoff
delays actually waited through. -/
structure DoRes where
  result : Option String
  calls : Nat
  waits : List ℚ
deriving DecidableEq

/-- The error text `fmt.Errorf("max attempts reached (%d): %w", ...)`
(`%w` of a nil error renders as `%!w(<nil>)`, which only arises when the
loop body never ran). -/
def maxAttemptsMsg (maxAttempts : Nat) (lastErr : Option String) : String :=
  "max attempts reached (" ++ toString maxAttempts ++ "): " ++
    (match lastErr with
     | some e => e
     | none => "%!w(<nil>)")

/-- The error text `fmt.Errorf("permanent error (attempt %d/%d): %w", ...)`. -/
def permanentMsg (attempt maxAttempts : Nat) (err : String) : String :=
  "permanent error (attempt " ++ toString attempt ++ "/" ++
    toString maxAttempts ++ "): " ++ err

/-- The error text `fmt.Errorf("retry cancelled: %w", ctx.Err())`. -/
def cancelledMsg (ctxErr : String) : String :=
  "retry cancelled: " ++ ctxErr

/-- The body of `retry.Do`'s loop.  `fn n` is the operation's error on its
(1-based) `n`-th invocation (`none` = success); `cancel n` tells whether
the `select` after attempt `n` observes context cancellation before the
backoff timer fires; `ctxErr` is the context's error text.  `remaining`
counts the attempts still allowed (`remaining = MaxAttempts - attempt + 1`),
keeping the recursion structural. -/
def doAux (config : RetryConfig) (fn : Nat → Option String)
    (cancel : Nat → Bool) (ctxErr : String) :
    Nat → Nat → Option String → DoRes
  | 0, _, lastErr =>
    { result := some (maxAttemptsMsg config.MaxAttempts lastErr)
      calls := 0
      waits := [] }
  | remaining + 1, attempt, _ =>
    match fn attempt with
    | none => { result := none, calls := 1, waits := [] }
    | some err =>
      if IsRetryable err then
        if remaining = 0 then
          { result := some (maxAttemptsMsg config.MaxAttempts (some err))
            calls := 1
            waits := [] }
        else
          let delay := calculateBackoff attempt config
          if cancel attempt then
            { result := some (cancelledMsg ctxErr), calls := 1, waits := [] }
          else
            let r := doAux config fn cancel ctxErr remaining (attempt + 1) (some err)
            { result := r.result, calls := r.calls + 1, waits := delay :: r.waits }
      else
        { result := some (permanentMsg attempt config.MaxAttempts err)
          calls := 1
          waits := [] }

/-- `retry.Do`: run the loop from attempt 1 with no last error yet. -/
def retryDo (config : RetryConfig) (fn : Nat → Option String)
    (cancel : Nat → Bool) (ctxErr : String) : DoRes :=
  doAux config fn cancel ctxErr config.MaxAttempts 1 none

/-! ## `SMTPClient.buildMessage` (infrastructure)

The builder writes the message with a sequence of `buf.WriteString` calls.
Every write is either a chunk of text followed by CRLF, a bare CRLF, or a
body written immediately before a CRLF; grouping the stream at each CRLF
therefore renders the byte stream as `units.flatMap (· ++ CRLF)`, where
each unit is the text written between two consecutive CRLFs (bodies keep
their internal characters inside a single unit).  The wall-clock reads
are parameters: `t1` and `t2` are the two `time.Now().UnixNano()` values
feeding the boundaries, `dateStr` the formatted `Date` value, `msgId` the
`UnixNano` of the `Message-ID`, and `host` is `config.Host`. -/

/-- `strings.Join(l, ", ")`. -/
def joinComma : List String → String
  | [] => ""
  | [s] => s
  | s :: rest => s ++ ", " ++ joinComma rest

/-- `mime.needsEncoding`: a byte below space or above tilde (tab excepted)
forces an encoded word.  All such bytes belong to multi-byte runes or
control runes, so the rune-level check agrees with Go's byte-level one. -/
def needsEncoding (s : String) : Bool :=
  s.data.any fun c => (decide (c < ' ') || decide ('~' < c)) && c ≠ '\t'

/-- UTF-8 encoding of one scalar value (model of Go's `[]byte(s)` view). -/
def utf8Bytes (c : Char) : List Nat :=
  let n := c.toNat
  if n < 128 then [n]
  else if n < 2048 then [192 + n / 64, 128 + n % 64]
  else if n < 65536 then [224 + n / 4096, 128 + n / 64 % 64, 128 + n % 64]
  else [240 + n / 262144, 128 + n / 4096 % 64, 128 + n / 64 % 64, 128 + n % 64]

/-- The UTF-8 bytes of a string. -/
def strUTF8 (s : String) : List Nat := s.data.flatMap utf8Bytes

/-- Model of `mime.BEncoding.Encode("UTF-8", s)`: pass printable-ASCII
text through unchanged, otherwise emit a base64 encoded word.  (Go
additionally splits words longer than 75 characters into several encoded
words separated by spaces; the splitting only inserts more characters of
the same CR/LF-free shape and no claim depends on it.) -/
def wordEncode (s : String) : String :=
  if needsEncoding s then
    "=?UTF-8?b?" ++ String.mk (b64Encode (strUTF8 s)) ++ "?="
  else s

/-- `fmt.Sprintf("outer_%d", t1)`. -/
def outerBoundary (t1 : Nat) : List Char :=
  "outer_".data ++ (toString t1).data

/-- `fmt.Sprintf("inner_%d", t2+1)`. -/
def innerBoundary (t2 : Nat) : List Char :=
  "inner_".data ++ (toString (t2 + 1)).data

/-- The dash-boundary line `--boundary` introducing a part. -/
def dashOpen (b : List Char) : List Char := '-' :: '-' :: b

/-- The terminating line `--boundary--`. -/
def dashClose (b : List Char) : List Char := '-' :: '-' :: b ++ ['-', '-']

/-- A custom header line `fmt.Sprintf("%s: %s", key, value)`. -/
def headerLineData (kv : String × String) : List Char :=
  kv.1.data ++ ':' :: ' ' :: kv.2.data

/-- The priority header lines (the `switch email.Priority` block; `Normal`
emits none). -/
def priorityUnits : Priority → List (List Char)
  | .high => ["X-Priority: 1".data, "Importance: high".data]
  | .low => ["X-Priority: 5".data, "Importance: low".data]
  | .normal => []

/-- The RFC 5322 header block the builder writes before the MIME body. -/
def headerUnits (e : Email) (dateStr : String) (msgId : Nat) (host : String) :
    List (List Char) :=
  ["From: ".data ++ e.From.data,
    "To: ".data ++ (joinComma e.To).data]
  ++ (if e.Cc.isEmpty then [] else ["Cc: ".data ++ (joinComma e.Cc).data])
  ++ ["Subject: ".data ++ (wordEncode e.Subject).data,
    "Date: ".data ++ dateStr.data,
    "Message-ID: <".data ++ (toString msgId).data ++ '@' :: host.data ++ ['>']]
  ++ e.Headers.map headerLineData
  ++ priorityUnits e.Priority
  ++ ["MIME-Version: 1.0".data]

def ctTextLine : List Char := "Content-Type: text/plain; charset=UTF-8".data

def ctHtmlLine : List Char := "Content-Type: text/html; charset=UTF-8".data

/-- `Content-Type: multipart/alternative; boundary="…"`. -/
def ctAltLine (inner : List Char) : List Char :=
  "Content-Type: multipart/alternative; boundary=\"".data ++ inner ++ ['"']

/-- `Content-Type: multipart/mixed; boundary="…"`. -/
def ctMixedLine (outer : List Char) : List Char :=
  "Content-Type: multipart/mixed; boundary=\"".data ++ outer ++ ['"']

/-- The text/HTML sub-parts of the `multipart/alternative` block; a part
is written only when its body is non-empty. -/
def altSubUnits (e : Email) (inner : List Char) : List (List Char) :=
  (if e.TextBody = "" then [] else
    [dashOpen inner, ctTextLine, [], e.TextBody.data, []])
  ++ (if e.HTMLBody = "" then [] else
    [dashOpen inner, ctHtmlLine, [], e.HTMLBody.data, []])

/-- The units one attachment contributes: its dash-boundary line, three
part headers, a blank line, the wrapped base64 text, and a blank line. -/
def attUnits (outer : List Char) (att : Attachment) : List (List Char) :=
  [dashOpen outer,
    "Content-Type: ".data ++ att.ContentType.data ++ "; name=\"".data ++
      att.Filename.data ++ ['"'],
    "Content-Transfer-Encoding: base64".data,
    "Content-Disposition: attachment; filename=\"".data ++ att.Filename.data ++ ['"'],
    []]
  ++ chunks76 (b64Encode att.Data)
  ++ [[]]

/-- The MIME body: `multipart/alternative` alone without attachments,
`multipart/mixed` wrapping the alternative block plus one part per
attachment otherwise. -/
def bodyUnits (e : Email) (outer inner : List Char) : List (List Char) :=
  if e.Attachments.isEmpty then
    [ctAltLine inner, []] ++ altSubUnits e inner ++ [dashClose inner]
  else
    [ctMixedLine outer, [], dashOpen outer, ctAltLine inner, []]
    ++ altSubUnits e inner ++ [dashClose inner, []]
    ++ e.Attachments.flatMap (attUnits outer)
    ++ [dashClose outer]

/-- All units of `buildMessage`, in write order. -/
def buildUnits (e : Email) (t1 t2 : Nat) (dateStr : String) (msgId : Nat)
    (host : String) : List (List Char) :=
  headerUnits e dateStr msgId host ++
    bodyUnits e (outerBoundary t1) (innerBoundary t2)

/-- `SMTPClient.buildMessage`: the byte stream (at rune level) returned to
the caller.  The Go function's `error` result is always `nil`. -/
def buildMessageData (e : Email) (t1 t2 : Nat) (dateStr : String)
    (msgId : Nat) (host : String) : List Char :=
  (buildUnits e t1 t2 dateStr msgId host).flatMap fun u => u ++ ['\r', '\n']

/-! ## MIME observation functions

Observers used to state what a receiver parsing the built message sees:
the first `Content-Type` header of the stream, and the part decomposition
with respect to a boundary (lines between one `--boundary` delimiter and
the next, up to the `--boundary--` terminator). -/

/-- Whether `p` is a prefix of `l` (character by character). -/
def hasPrefixChars : List Char → List Char → Bool
  | [], _ => true
  | _ :: _, [] => false
  | p :: ps, c :: cs => p = c && hasPrefixChars ps cs

/-- Whether a line is a `Content-Type` header line. -/
def isCTLine (l : List Char) : Bool :=
  hasPrefixChars "Content-Type: ".data l

/-- The first `Content-Type` header line of the message. -/
def firstCTLine (lines : List (List Char)) : Option (List Char) :=
  lines.find? isCTLine

/-- Scanner for the parts delimited by a boundary: skip the preamble until
the first `--boundary` line, collect each part's lines, stop at the
`--boundary--` terminator.  The accumulator holds the current part, if a
delimiter has been seen. -/
def mimePartsAux (openL closeL : List Char) :
    List (List Char) → Option (List (List Char)) → List (List (List Char))
  | [], none => []
  | [], some cur => [cur]
  | l :: rest, none =>
    if l = openL then mimePartsAux openL closeL rest (some [])
    else mimePartsAux openL closeL rest none
  | l :: rest, some cur =>
    if l = openL then cur :: mimePartsAux openL closeL rest (some [])
    else if l = closeL then [cur]
    else mimePartsAux openL closeL rest (some (cur ++ [l]))

/-- The parts of a multipart body with boundary `b`, as line lists. -/
def mimeParts (b : List Char) (lines : List (List Char)) :
    List (List (List Char)) :=
  mimePartsAux (dashOpen b) (dashClose b) lines none

/-- The lines a receiver sees for one attachment part (between its
delimiter and the next): three part headers, a blank separator, the
wrapped base64 text, and a final blank line. -/
def attPartLines (att : Attachment) : List (List Char) :=
  ["Content-Type: ".data ++ att.ContentType.data ++ "; name=\"".data ++
      att.Filename.data ++ ['"'],
    "Content-Transfer-Encoding: base64".data,
    "Content-Disposition: attachment; filename=\"".data ++ att.Filename.data ++ ['"'],
    []]
  ++ chunks76 (b64Encode att.Data)
  ++ [[]]

/-- The lines of the `multipart/alternative` block as the first part of a
`multipart/mixed` message. -/
def altBlockLines (e : Email) (inner : List Char) : List (List Char) :=
  [ctAltLine inner, []]
  ++ (if e.TextBody = "" then [] else
    [dashOpen inner, ctTextLine, []] ++ crlfLines e.TextBody.data ++ [[]])
  ++ (if e.HTMLBody = "" then [] else
    [dashOpen inner, ctHtmlLine, []] ++ crlfLines e.HTMLBody.data ++ [[]])
  ++ [dashClose inner, []]

/-- The sub-parts of the `multipart/alternative` body when the message has
no attachments: one part per present body. -/
def presentSubParts (e : Email) : List (List (List Char)) :=
  (if e.TextBody = "" then [] else
    [[ctTextLine, []] ++ crlfLines e.TextBody.data ++ [[]]])
  ++ (if e.HTMLBody = "" then [] else
    [[ctHtmlLine, []] ++ crlfLines e.HTMLBody.data ++ [[]]])

/-! ## `ConnectionPool` (infrastructure)

The pool's observable state is the number of buffered connections (the
channel), the number checked out by callers, and the closed flag; all
three are read and written under the mutex, so a sequential trace of
operations captures the reachable states.  `Get`'s health probe and the
synchronous reconnection are oracles (`alive`, `recreateOk`); a `Get` on
an empty open buffer blocks and ends in the 30s timeout or context
cancellation, in either case without a state change. -/

structure PoolState where
  buffered : Nat
  checkedOut : Nat
  closed : Bool
deriving DecidableEq

/-- Result of `ConnectionPool.Get`. -/
inductive GetResult where
  /-- A live connection is handed out. -/
  | conn
  /-- `fmt.Errorf("pool is closed")`, returned before touching the buffer. -/
  | poolClosed
  /-- The 30s timeout or context cancellation while waiting. -/
  | timedOut
  /-- The buffered connection was dead and recreating it failed. -/
  | recreateFailed
deriving DecidableEq

/-- `ConnectionPool.Get`. -/
def poolGet (s : PoolState) (alive recreateOk : Bool) : PoolState × GetResult :=
  if s.closed then (s, .poolClosed)
  else if s.buffered = 0 then (s, .timedOut)
  else if alive then
    ({ s with buffered := s.buffered - 1, checkedOut := s.checkedOut + 1 }, .conn)
  else if recreateOk then
    ({ s with buffered := s.buffered - 1, checkedOut := s.checkedOut + 1 }, .conn)
  else ({ s with buffered := s.buffered - 1 }, .recreateFailed)

/-- `ConnectionPool.Put` of a connection the caller holds (a no-op if the
caller holds none — such a call has no Go counterpart).  A put into a
closed or full pool closes the connection instead of buffering it. -/
def poolPut (capacity : Nat) (s : PoolState) : PoolState :=
  if s.checkedOut = 0 then s
  else if s.closed then { s with checkedOut := s.checkedOut - 1 }
  else if s.buffered < capacity then
    { s with buffered := s.buffered + 1, checkedOut := s.checkedOut - 1 }
  else { s with checkedOut := s.checkedOut - 1 }

/-- `ConnectionPool.Close`: mark closed and drain (terminate) the buffer;
idempotent. -/
def poolClose (s : PoolState) : PoolState :=
  { s with buffered := 0, closed := true }

/-- One pool operation of a trace. -/
inductive PoolOp where
  | get (alive recreateOk : Bool)
  | put
  | close
deriving DecidableEq

def poolStep (capacity : Nat) (s : PoolState) : PoolOp → PoolState
  | .get alive recreateOk => (poolGet s alive recreateOk).1
  | .put => poolPut capacity s
  | .close => poolClose s

/-- `NewConnectionPool(config, size)` after successful pre-population:
`size` buffered live connections, nothing checked out, open. -/
def newPool (capacity : Nat) : PoolState :=
  { buffered := capacity, checkedOut := 0, closed := false }

/-- The state after a trace of pool operations. -/
def runPool (capacity : Nat) (ops : List PoolOp) : PoolState :=
  ops.foldl (poolStep capacity) (newPool capacity)

/-! ## `SMTPClient.Send` and `sendWithConnection` (infrastructure) -/

/-- Outcomes of the protocol calls `sendWithConnection` makes on the
leased connection (`none` = the call succeeded). -/
structure ProtoOracle where
  mailErr : Option String
  rcptErrs : String → Option String
  dataErr : Option String
  writeErr : Option String
  closeErr : Option String
  resetErr : Option String

/-- First recipient whose `RCPT TO` fails, with its error. -/
def firstRcptErr (o : ProtoOracle) : List String → Option (String × String)
  | [] => none
  | addr :: rest =>
    match o.rcptErrs addr with
    | some err => some (addr, err)
    | none => firstRcptErr o rest

/-- `SMTPClient.sendWithConnection`: `MAIL FROM`, one `RCPT TO` per
recipient over To ++ Cc ++ Bcc, `DATA`, the message write, close of the
data writer, then `conn.Reset()` (whose error is returned unwrapped). -/
def sendWithConnection (e : Email) (o : ProtoOracle) : Option String :=
  match o.mailErr with
  | some err => some ("MAIL FROM failed: " ++ err)
  | none =>
    match firstRcptErr o (e.To ++ e.Cc ++ e.Bcc) with
    | some (addr, err) => some ("RCPT TO " ++ addr ++ " failed: " ++ err)
    | none =>
      match o.dataErr with
      | some err => some ("DATA failed: " ++ err)
      | none =>
        match o.writeErr with
        | some err => some ("write failed: " ++ err)
        | none =>
          match o.closeErr with
          | some err => some ("close failed: " ++ err)
          | none => o.resetErr

/-- `buildMessage`'s result as the fallible value `Send` inspects: the
`error` component is always `nil` (`buildMessage` has no failing return). -/
def buildMessageE (e : Email) (t1 t2 : Nat) (dateStr : String) (msgId : Nat)
    (host : String) : Except String (List Char) :=
  .ok (buildMessageData e t1 t2 dateStr msgId host)

/-- Pool interactions of one `Send`, in order. -/
inductive PoolCall where
  | get (ok : Bool)
  | put
deriving DecidableEq

/-- `SMTPClient.Send`: acquire a connection (`getRes` is `Get`'s error,
`none` on success), register `defer c.pool.Put(conn)`, build the message,
send it; the deferred `Put` runs on every return path after a successful
`Get`.  Returns the pool interactions in order plus `Send`'s error. -/
def clientSend (e : Email) (getRes : Option String) (t1 t2 : Nat)
    (dateStr : String) (msgId : Nat) (host : String) (o : ProtoOracle) :
    List PoolCall × Option String :=
  match getRes with
  | some err => ([.get false], some ("failed to get connection: " ++ err))
  | none =>
    match buildMessageE e t1 t2 dateStr msgId host with
    | .error err => ([.get true, .put], some ("failed to build message: " ++ err))
    | .ok _ =>
      match sendWithConnection e o with
      | some err => ([.get true, .put], some ("failed to send: " ++ err))
      | none => ([.get true, .put], none)

/-! ## `EmailService.SendEmail` (application)

`send n` is the error of the `n`-th (1-based) delegate call
`s.sender.Send(ctx, email)`.  The retry closure increments
`email.Attempts` exactly once per invocation before delegating, so after
the loop the counter has grown by the number of invocations. -/

def serviceSendEmail (cfg : RetryConfig) (send : Nat → Option String)
    (cancel : Nat → Bool) (ctxErr : String) (e : Email) :
    Email × Option String :=
  match e.Validate with
  | some err => (e, some ("validation failed: " ++ err))
  | none =>
    let r := retryDo cfg send cancel ctxErr
    let e2 := { e with Status := StatusSending, Attempts := e.Attempts + r.calls }
    match r.result with
    | some err =>
      ({ e2 with Status := StatusFailed, LastError := err },
        some ("failed to send email: " ++ err))
    | none => ({ e2 with Status := StatusSent }, none)

/-! # Claims -/

/-! ## C1 — the validation gate -/

theorem validate_none_iff (e : Email) :
    e.Validate = none ↔
      (isValidEmail e.From = true ∧ e.To ≠ [] ∧
        (∀ addr ∈ e.To, isValidEmail addr = true) ∧
        e.Subject ≠ "" ∧ (e.TextBody ≠ "" ∨ e.HTMLBody ≠ "")) := by
  cases hfind : e.To.find? (fun addr => !isValidEmail addr) with
  | some addr =>
    have hmem : addr ∈ e.To := List.mem_of_find?_eq_some hfind
    have hbad : isValidEmail addr = false := by
      have := List.find?_some hfind
      simpa using this
    simp only [Email.Validate, hfind]
    constructor
    · intro h
      split_ifs at h <;> simp at h
    · rintro ⟨_, _, hall, _, _⟩
      exact absurd (hall addr hmem) (by simp [hbad])
  | none =>
    have hall : ∀ addr ∈ e.To, isValidEmail addr = true := by
      intro a ha
      have := List.find?_eq_none.mp hfind a ha
      simpa using this
    simp only [Email.Validate, hfind]
    split_ifs with h1 h2 h3 h4 h5
    · constructor
      · intro h; simp at h
      · rintro ⟨hf, -⟩
        rw [h1] at hf
        exact absurd hf (by decide)
    · constructor
      · intro h; simp at h
      · rintro ⟨hf, -⟩
        simp [hf] at h2
    · constructor
      · intro h; simp at h
      · rintro ⟨-, hto, -⟩
        exact hto (List.isEmpty_iff.mp h3)
    · constructor
      · intro h; simp at h
      · rintro ⟨-, -, -, hs, -⟩
        exact hs h4
    · constructor
      · intro h; simp at h
      · rintro ⟨-, -, -, -, hb⟩
        simp only [Bool.and_eq_true, decide_eq_true_eq] at h5
        rcases hb with hb | hb <;> simp [hb] at h5
    · simp only [true_iff]
      refine ⟨by simpa using h2, fun h => h3 (by simp [h]), hall, h4, ?_⟩
      by_contra hb
      push_neg at hb
      simp [hb.1, hb.2] at h5

/-- C1 (amended).  The builder's `Build` (equivalently `Email.Validate`)
succeeds exactly when the sender address and every address in `To` match
the simplified RFC 5322 grammar, `To` is non-empty, the subject is
non-empty, and at least one body is non-empty.  Addresses in `Cc` and
`Bcc` are NOT validated (contrary to the claim as stated, see the
counterexample): validation never inspects them. -/
theorem c1_validation_gate (e : Email) :
    EmailBuilder.Build e = .ok e ↔
      (isValidEmail e.From = true ∧ e.To ≠ [] ∧
        (∀ addr ∈ e.To, isValidEmail addr = true) ∧
        e.Subject ≠ "" ∧ (e.TextBody ≠ "" ∨ e.HTMLBody ≠ "")) := by
  rw [← validate_none_iff]
  unfold EmailBuilder.Build
  cases h : e.Validate <;> simp [h]

/-- A syntactically valid email whose `Cc` entry matches nothing in the
address grammar. -/
def ccInvalidEmail : Email where
  ID := ""
  From := "sender@example.com"
  To := ["rcpt@example.com"]
  Cc := ["not-an-address"]
  Bcc := []
  Subject := "subject"
  TextBody := "body"
  HTMLBody := ""
  Attachments := []
  Headers := []
  Priority := .normal
  CreatedAt := 0
  Status := "pending"
  Attempts := 0
  LastError := ""

/-- C1 counterexample.  An `Email` whose `Cc` list contains an address
that fails the RFC 5322 grammar nevertheless passes `Validate` and is
accepted by `Build`: the claim that `Build` fails whenever any recipient
address in `Cc` (or `Bcc`) is invalid is false. -/
theorem c1_cc_unchecked_cex :
    isValidEmail "not-an-address" = false ∧
    "not-an-address" ∈ ccInvalidEmail.Cc ∧
    ccInvalidEmail.Validate = none ∧
    EmailBuilder.Build ccInvalidEmail = .ok ccInvalidEmail := by
  refine ⟨by decide, by decide, by decide, by rfl⟩

/-! ## C2 — permanent-error short circuit -/

theorem isRetryable_false_of_permanent (err : String)
    (hperm : hasPermanentIndicator err = true)
    (htemp : hasTemporaryIndicator err = false) :
    IsRetryable err = false := by
  simp [IsRetryable, hperm, htemp]

/-- C2 (amended).  For every error whose text contains a permanent SMTP
indicator (550–554) and no transient indicator (421/450/451/452, timeout,
connection refused/reset, temporary failure — these are scanned first and
win), `retry.Do` aborts immediately after the first failing attempt,
wrapping the error as permanent, even if attempts remain: the operation is
invoked exactly once, no backoff is waited. -/
theorem c2_permanent_short_circuit (cfg : RetryConfig)
    (fn : Nat → Option String) (cancel : Nat → Bool) (ctxErr err : String)
    (hmax : 1 ≤ cfg.MaxAttempts) (hfn : fn 1 = some err)
    (hperm : hasPermanentIndicator err = true)
    (htemp : hasTemporaryIndicator err = false) :
    retryDo cfg fn cancel ctxErr =
      { result := some (permanentMsg 1 cfg.MaxAttempts err)
        calls := 1
        waits := [] } := by
  obtain ⟨m, hm⟩ : ∃ m, cfg.MaxAttempts = m + 1 :=
    ⟨cfg.MaxAttempts - 1, by omega⟩
  unfold retryDo
  rw [hm]
  unfold doAux
  simp only [hfn, isRetryable_false_of_permanent err hperm htemp,
    Bool.false_eq_true, if_false, ← hm]

/-- C2 witness for the amended theorem: an operation always failing with a
pure 550 error is invoked exactly once under the default configuration. -/
theorem c2_permanent_short_circuit_witness :
    1 ≤ defaultRetryConfig.MaxAttempts ∧
    hasPermanentIndicator "550 mailbox unavailable" = true ∧
    hasTemporaryIndicator "550 mailbox unavailable" = false ∧
    retryDo defaultRetryConfig (fun _ => some "550 mailbox unavailable")
        (fun _ => false) "context canceled" =
      { result := some (permanentMsg 1 defaultRetryConfig.MaxAttempts
          "550 mailbox unavailable")
        calls := 1
        waits := [] } :=
  ⟨by decide, by decide, by decide,
    c2_permanent_short_circuit defaultRetryConfig
      (fun _ => some "550 mailbox unavailable") (fun _ => false)
      "context canceled" "550 mailbox unavailable"
      (by decide) rfl (by decide) (by decide)⟩

/-- C2 counterexample.  The error text `"451 then 550"` contains the
permanent indicator `550`, yet because the temporary scan runs first and
finds `451`, `retry.Do` retries it: with the default configuration the
operation is invoked 5 times (not once) and the final error is the
exhausted-retries one, not the permanent wrap.  This falsifies the claim
for every error containing a permanent indicator. -/
theorem c2_permanent_cex :
    hasPermanentIndicator "451 then 550" = true ∧
    (retryDo defaultRetryConfig (fun _ => some "451 then 550")
        (fun _ => false) "context canceled").calls = 5 ∧
    (retryDo defaultRetryConfig (fun _ => some "451 then 550")
        (fun _ => false) "context canceled").result =
      some (maxAttemptsMsg 5 (some "451 then 550")) := by
  refine ⟨by decide, by decide, by decide⟩

/-! ## C3 — retry exhaustion -/

theorem doAux_all_fail (cfg : RetryConfig) (fn : Nat → Option String)
    (cancel : Nat → Bool) (ctxErr : String) (errs : Nat → String)
    (hfn : ∀ n, fn n = some (errs n))
    (hretry : ∀ n, IsRetryable (errs n) = true)
    (hcancel : ∀ n, cancel n = false) :
    ∀ (m attempt : Nat) (lastErr : Option String),
      doAux cfg fn cancel ctxErr (m + 1) attempt lastErr =
        { result := some (maxAttemptsMsg cfg.MaxAttempts (some (errs (attempt + m))))
          calls := m + 1
          waits := (List.range m).map fun i => calculateBackoff (attempt + i) cfg } := by
  intro m
  induction m with
  | zero =>
    intro attempt lastErr
    unfold doAux
    simp [hfn attempt, hretry attempt]
  | succ m ih =>
    intro attempt lastErr
    unfold doAux
    simp only [hfn attempt, hretry attempt, if_true, Nat.succ_ne_zero,
      if_false, hcancel attempt, Bool.false_eq_true,
      ih (attempt + 1) (some (errs attempt))]
    have h1 : attempt + 1 + m = attempt + (m + 1) := by omega
    rw [DoRes.mk.injEq]
    refine ⟨by rw [h1], rfl, ?_⟩
    rw [List.range_succ_eq_map, List.map_cons, List.map_map]
    rw [Nat.add_zero]
    refine congrArg₂ _ rfl ?_
    refine List.map_congr_left fun i _ => ?_
    simp only [Function.comp_apply]
    refine congrArg₂ _ ?_ rfl
    omega

/-- C3.  An operation failing on every invocation with a transient error
is invoked exactly `MaxAttempts` times, no backoff follows the final
attempt (the waits are exactly the backoffs of attempts
`1 … MaxAttempts-1`), and the returned error names the attempt count and
carries the last underlying error. -/
theorem c3_retry_exhaustion (cfg : RetryConfig) (fn : Nat → Option String)
    (cancel : Nat → Bool) (ctxErr : String) (errs : Nat → String)
    (hmax : 1 ≤ cfg.MaxAttempts)
    (hfn : ∀ n, fn n = some (errs n))
    (hretry : ∀ n, IsRetryable (errs n) = true)
    (hcancel : ∀ n, cancel n = false) :
    retryDo cfg fn cancel ctxErr =
      { result := some (maxAttemptsMsg cfg.MaxAttempts (some (errs cfg.MaxAttempts)))
        calls := cfg.MaxAttempts
        waits := (List.range (cfg.MaxAttempts - 1)).map
          fun i => calculateBackoff (i + 1) cfg } := by
  obtain ⟨m, hm⟩ : ∃ m, cfg.MaxAttempts = m + 1 :=
    ⟨cfg.MaxAttempts - 1, by omega⟩
  unfold retryDo
  rw [hm, doAux_all_fail cfg fn cancel ctxErr errs hfn hretry hcancel m 1 none]
  rw [DoRes.mk.injEq]
  have h1 : 1 + m = m + 1 := by omega
  refine ⟨by rw [h1, ← hm], by rw [← hm], ?_⟩
  rw [Nat.add_sub_cancel]
  refine List.map_congr_left fun i _ => ?_
  refine congrArg₂ _ ?_ rfl
  omega

/-- C3 witness: a 451-class always-failing operation under the default
configuration runs 5 times, waits 1s, 2s, 4s, 8s, and reports
`max attempts reached (5)` wrapping the last error. -/
theorem c3_retry_exhaustion_witness :
    1 ≤ defaultRetryConfig.MaxAttempts ∧
    IsRetryable "451 local error" = true ∧
    retryDo defaultRetryConfig (fun _ => some "451 local error")
        (fun _ => false) "context canceled" =
      { result := some (maxAttemptsMsg defaultRetryConfig.MaxAttempts
          (some "451 local error"))
        calls := defaultRetryConfig.MaxAttempts
        waits := (List.range (defaultRetryConfig.MaxAttempts - 1)).map
          fun i => calculateBackoff (i + 1) defaultRetryConfig } :=
  ⟨by decide, by decide,
    c3_retry_exhaustion defaultRetryConfig (fun _ => some "451 local error")
      (fun _ => false) "context canceled" (fun _ => "451 local error")
      (by decide) (fun _ => rfl)
      (fun _ => show IsRetryable "451 local error" = true by decide)
      (fun _ => rfl)⟩

/-! ## C4 — the backoff schedule -/

/-- C4.  The backoff for 1-based attempt `n` is
`min(initialDelay * multiplier^(n-1), maxDelay)`; for a multiplier of at
least 1 and a non-negative initial delay the schedule is non-decreasing
and never exceeds `MaxDelay`; the default configuration yields 1s, 2s,
4s, 8s, 16s for attempts 1–5 (durations in nanoseconds). -/
theorem c4_backoff_schedule (cfg : RetryConfig) (n : Nat) (hn : 1 ≤ n)
    (hm : 1 ≤ cfg.Multiplier) (hd : 0 ≤ cfg.InitialDelay) :
    calculateBackoff n cfg =
        min (cfg.InitialDelay * cfg.Multiplier ^ (n - 1)) cfg.MaxDelay
    ∧ calculateBackoff n cfg ≤ calculateBackoff (n + 1) cfg
    ∧ calculateBackoff n cfg ≤ cfg.MaxDelay
    ∧ (List.range 5).map (fun i => calculateBackoff (i + 1) defaultRetryConfig) =
        [1000000000, 2000000000, 4000000000, 8000000000, 16000000000] := by
  have hmin : ∀ k : Nat, calculateBackoff k cfg =
      min (cfg.InitialDelay * cfg.Multiplier ^ (k - 1)) cfg.MaxDelay := by
    intro k
    simp only [calculateBackoff, min_def]
    split_ifs <;> first | rfl | linarith
  have hmono : cfg.InitialDelay * cfg.Multiplier ^ (n - 1) ≤
      cfg.InitialDelay * cfg.Multiplier ^ (n + 1 - 1) := by
    apply mul_le_mul_of_nonneg_left _ hd
    apply pow_le_pow_right₀ hm
    omega
  have hconc : (List.range 5).map
      (fun i => calculateBackoff (i + 1) defaultRetryConfig) =
      [1000000000, 2000000000, 4000000000, 8000000000, 16000000000] := by
    have h5 : List.range 5 = [0, 1, 2, 3, 4] := by decide
    rw [h5]
    simp only [List.map_cons, List.map_nil, calculateBackoff, defaultRetryConfig]
    norm_num
  refine ⟨hmin n, ?_, ?_, hconc⟩
  · rw [hmin n, hmin (n + 1)]
    exact min_le_min_right _ hmono
  · rw [hmin n]
    exact min_le_right _ _

/-- C4 witness at attempt 3 of the default configuration. -/
theorem c4_backoff_schedule_witness :
    calculateBackoff 3 defaultRetryConfig =
        min (defaultRetryConfig.InitialDelay * defaultRetryConfig.Multiplier ^ 2)
          defaultRetryConfig.MaxDelay
    ∧ calculateBackoff 3 defaultRetryConfig ≤ calculateBackoff 4 defaultRetryConfig
    ∧ calculateBackoff 3 defaultRetryConfig ≤ defaultRetryConfig.MaxDelay :=
  have h := c4_backoff_schedule defaultRetryConfig 3 (by decide) (by decide) (by decide)
  ⟨h.1, h.2.1, h.2.2.1⟩

/-! ## C8 — pool capacity invariant and closed-pool gets -/

theorem poolStep_bound (capacity : Nat) (s : PoolState) (op : PoolOp)
    (h : s.buffered + s.checkedOut ≤ capacity) :
    (poolStep capacity s op).buffered + (poolStep capacity s op).checkedOut ≤
      capacity := by
  cases op with
  | get alive recreateOk =>
    simp only [poolStep, poolGet]
    split_ifs <;> (try dsimp only) <;> omega
  | put =>
    simp only [poolStep, poolPut]
    split_ifs <;> (try dsimp only) <;> omega
  | close =>
    simp only [poolStep, poolClose]
    omega

theorem poolStep_closed (capacity : Nat) (s : PoolState) (op : PoolOp)
    (h : s.closed = true) : (poolStep capacity s op).closed = true := by
  cases op with
  | get alive recreateOk => simp [poolStep, poolGet, h]
  | put =>
    simp only [poolStep, poolPut]
    split_ifs <;> simp [h]
  | close => simp [poolStep, poolClose]

theorem foldl_poolStep_bound (capacity : Nat) (ops : List PoolOp) :
    ∀ s : PoolState, s.buffered + s.checkedOut ≤ capacity →
      (ops.foldl (poolStep capacity) s).buffered +
        (ops.foldl (poolStep capacity) s).checkedOut ≤ capacity := by
  induction ops with
  | nil => intro s h; exact h
  | cons op rest ih =>
    intro s h
    exact ih (poolStep capacity s op) (poolStep_bound capacity s op h)

theorem foldl_poolStep_closed (capacity : Nat) (ops : List PoolOp) :
    ∀ s : PoolState, s.closed = true ∨ PoolOp.close ∈ ops →
      (ops.foldl (poolStep capacity) s).closed = true := by
  induction ops with
  | nil =>
    intro s h
    rcases h with h | h
    · exact h
    · simp at h
  | cons op rest ih =>
    intro s h
    rcases h with h | h
    · exact ih _ (Or.inl (poolStep_closed capacity s op h))
    · rcases List.mem_cons.mp h with h | h
      · subst h
        exact ih _ (Or.inl (by simp [poolStep, poolClose]))
      · exact ih _ (Or.inr h)

/-- C8.  In every state reachable from a freshly populated pool of
capacity `N` by any trace of `Get`/`Put`/`Close` operations, the number
of connections outstanding (buffered plus checked out) never exceeds `N`;
once a `Close` occurs in the trace the pool stays closed, and a `Get` on a
closed pool returns the `pool is closed` error without touching the
buffer or handing out a connection. -/
theorem c8_pool_invariant (capacity : Nat) (ops : List PoolOp) :
    (runPool capacity ops).buffered + (runPool capacity ops).checkedOut ≤ capacity
    ∧ (PoolOp.close ∈ ops → (runPool capacity ops).closed = true)
    ∧ ((runPool capacity ops).closed = true →
        ∀ alive recreateOk,
          poolGet (runPool capacity ops) alive recreateOk =
            (runPool capacity ops, GetResult.poolClosed)) := by
  refine ⟨?_, ?_, ?_⟩
  · exact foldl_poolStep_bound capacity ops (newPool capacity) (by simp [newPool])
  · intro h
    exact foldl_poolStep_closed capacity ops (newPool capacity) (Or.inr h)
  · intro h alive recreateOk
    simp [poolGet, h]

/-- C8 witness: a pool of capacity 2, after a checkout and a close, is
within capacity and refuses the next get. -/
theorem c8_pool_invariant_witness :
    (runPool 2 [PoolOp.get true true, PoolOp.close]).buffered +
        (runPool 2 [PoolOp.get true true, PoolOp.close]).checkedOut ≤ 2
    ∧ poolGet (runPool 2 [PoolOp.get true true, PoolOp.close]) true true =
        (runPool 2 [PoolOp.get true true, PoolOp.close], GetResult.poolClosed) :=
  ⟨(c8_pool_invariant 2 [PoolOp.get true true, PoolOp.close]).1,
    (c8_pool_invariant 2 [PoolOp.get true true, PoolOp.close]).2.2
      (by decide) true true⟩

/-! ## C9 — `Send` always returns the connection -/

/-- C9.  Whenever `SMTPClient.Send` acquires a connection from the pool
(`Get` succeeds), its pool interactions are exactly the successful `Get`
followed by one `Put` — the deferred `Put` runs on every path: the dead
build-failure branch, every protocol failure, and success alike, for every
protocol oracle. -/
theorem c9_send_always_puts (e : Email) (getRes : Option String)
    (t1 t2 : Nat) (dateStr : String) (msgId : Nat) (host : String)
    (o : ProtoOracle) (hget : getRes = none) :
    (clientSend e getRes t1 t2 dateStr msgId host o).1 =
      [PoolCall.get true, PoolCall.put] := by
  subst hget
  unfold clientSend buildMessageE
  cases h : sendWithConnection e o <;> simp

/-- C9 witness: with a failing `MAIL FROM`, the trace still ends with the
`Put`. -/
theorem c9_send_always_puts_witness :
    (clientSend ccInvalidEmail none 0 0 "D" 1 "h"
        { mailErr := some "550 rejected", rcptErrs := fun _ => none,
          dataErr := none, writeErr := none, closeErr := none,
          resetErr := none }).1 = [PoolCall.get true, PoolCall.put] :=
  c9_send_always_puts ccInvalidEmail none 0 0 "D" 1 "h" _ rfl

/-! ## C10 — `SendEmail` never resets `Attempts` or `LastError` -/

theorem validate_frame (e : Email) (st le : String) (att : Nat) :
    Email.Validate
      { e with Status := st, Attempts := att, LastError := le } =
      e.Validate := rfl

theorem service_attempts (cfg : RetryConfig) (s : Nat → Option String)
    (c : Nat → Bool) (ce : String) (e : Email) (hv : e.Validate = none) :
    (serviceSendEmail cfg s c ce e).1.Attempts =
      e.Attempts + (retryDo cfg s c ce).calls := by
  simp only [serviceSendEmail, hv]
  cases h : (retryDo cfg s c ce).result <;> simp

theorem service_validate_none (cfg : RetryConfig) (s : Nat → Option String)
    (c : Nat → Bool) (ce : String) (e : Email) (hv : e.Validate = none) :
    (serviceSendEmail cfg s c ce e).1.Validate = none := by
  simp only [serviceSendEmail, hv]
  cases h : (retryDo cfg s c ce).result <;>
    simp <;> rw [show ∀ e2 : Email,
      Email.Validate e2 = e.Validate → Email.Validate e2 = none from
        fun e2 he => he.trans hv] <;> rfl

theorem service_success (cfg : RetryConfig) (s : Nat → Option String)
    (c : Nat → Bool) (ce : String) (e : Email) (hv : e.Validate = none)
    (hres : (retryDo cfg s c ce).result = none) :
    (serviceSendEmail cfg s c ce e).1.LastError = e.LastError ∧
    (serviceSendEmail cfg s c ce e).1.Status = StatusSent := by
  simp only [serviceSendEmail, hv, hres]
  constructor <;> trivial

theorem service_failure (cfg : RetryConfig) (s : Nat → Option String)
    (c : Nat → Bool) (ce : String) (e : Email) (hv : e.Validate = none)
    (err : String) (hres : (retryDo cfg s c ce).result = some err) :
    (serviceSendEmail cfg s c ce e).1.LastError = err ∧
    (serviceSendEmail cfg s c ce e).1.Status = StatusFailed := by
  simp only [serviceSendEmail, hv, hres]
  constructor <;> trivial

/-- C10.  `EmailService.SendEmail` never resets the counter or the error
text: `Attempts` grows by exactly the number of delegate invocations of
that call, accumulating across successive calls on the same `Email`; on a
successful send `LastError` is untouched, so after a failed send followed
by a successful one the email carries status `sent` together with the
stale error text of the failed round. -/
theorem c10_sendemail_frame (cfg : RetryConfig) (s1 s2 : Nat → Option String)
    (c1 c2 : Nat → Bool) (ce : String) (e : Email)
    (hv : e.Validate = none) :
    (serviceSendEmail cfg s1 c1 ce e).1.Attempts =
        e.Attempts + (retryDo cfg s1 c1 ce).calls
    ∧ ((retryDo cfg s1 c1 ce).result = none →
        (serviceSendEmail cfg s1 c1 ce e).1.LastError = e.LastError ∧
        (serviceSendEmail cfg s1 c1 ce e).1.Status = StatusSent)
    ∧ (serviceSendEmail cfg s2 c2 ce (serviceSendEmail cfg s1 c1 ce e).1).1.Attempts
        = e.Attempts + (retryDo cfg s1 c1 ce).calls + (retryDo cfg s2 c2 ce).calls
    ∧ (∀ err1, (retryDo cfg s1 c1 ce).result = some err1 →
        (retryDo cfg s2 c2 ce).result = none →
        (serviceSendEmail cfg s2 c2 ce (serviceSendEmail cfg s1 c1 ce e).1).1.LastError
            = err1
        ∧ (serviceSendEmail cfg s2 c2 ce (serviceSendEmail cfg s1 c1 ce e).1).1.Status
            = StatusSent) := by
  have hv1 : (serviceSendEmail cfg s1 c1 ce e).1.Validate = none :=
    service_validate_none cfg s1 c1 ce e hv
  have hA1 := service_attempts cfg s1 c1 ce e hv
  have hA2 := service_attempts cfg s2 c2 ce _ hv1
  refine ⟨hA1, ?_, ?_, ?_⟩
  · intro hres
    exact service_success cfg s1 c1 ce e hv hres
  · rw [hA2, hA1]
  · intro err1 h1 h2
    obtain ⟨hle2, hst2⟩ := service_success cfg s2 c2 ce _ hv1 h2
    obtain ⟨hle1, -⟩ := service_failure cfg s1 c1 ce e hv err1 h1
    exact ⟨hle2.trans hle1, hst2⟩

/-- C10 witness: with the default configuration, a first round failing
with a transient error followed by a successful round leaves the email
sent, with five + one accumulated attempts and the stale exhausted-retries
text of the first round. -/
theorem c10_sendemail_frame_witness :
    (serviceSendEmail defaultRetryConfig (fun _ => none) (fun _ => false)
        "ctx" (serviceSendEmail defaultRetryConfig
          (fun _ => some "451 busy") (fun _ => false) "ctx"
          ccInvalidEmail).1).1.LastError =
        maxAttemptsMsg 5 (some "451 busy")
    ∧ (serviceSendEmail defaultRetryConfig (fun _ => none) (fun _ => false)
        "ctx" (serviceSendEmail defaultRetryConfig
          (fun _ => some "451 busy") (fun _ => false) "ctx"
          ccInvalidEmail).1).1.Status = StatusSent :=
  (c10_sendemail_frame defaultRetryConfig (fun _ => some "451 busy")
      (fun _ => none) (fun _ => false) (fun _ => false) "ctx" ccInvalidEmail
      (by decide)).2.2.2 (maxAttemptsMsg 5 (some "451 busy"))
    (by decide) (by decide)

/-! ## Facts about the decimal rendering of the boundary timestamps -/

theorem digitChar_isDigit (n : Nat) (h : n < 10) :
    (Nat.digitChar n).isDigit = true := by
  interval_cases n <;> decide

theorem toDigitsCore_digits (b : Nat) (hb : b = 10) (fuel : Nat) :
    ∀ (n : Nat) (ds : List Char), (∀ c ∈ ds, c.isDigit = true) →
      ∀ c ∈ Nat.toDigitsCore b fuel n ds, c.isDigit = true := by
  subst hb
  induction fuel with
  | zero =>
    intro n ds hds c hc
    exact hds c hc
  | succ fuel ih =>
    intro n ds hds c hc
    rw [Nat.toDigitsCore] at hc
    split at hc
    · rcases List.mem_cons.mp hc with h | h
      · subst h
        exact digitChar_isDigit _ (Nat.mod_lt n (by omega))
      · exact hds c h
    · refine ih (n / 10) (Nat.digitChar (n % 10) :: ds) ?_ c hc
      intro d hd
      rcases List.mem_cons.mp hd with h | h
      · subst h
        exact digitChar_isDigit _ (Nat.mod_lt n (by omega))
      · exact hds d h

theorem natToString_digits (n : Nat) :
    ∀ c ∈ (toString n).data, c.isDigit = true := by
  intro c hc
  exact toDigitsCore_digits 10 rfl (n + 1) n [] (by simp) c hc

theorem isDigit_notin (c : Char) (h : c.isDigit = true) :
    c ≠ '-' ∧ c ≠ '\r' ∧ c ≠ '\n' ∧ c ≠ ':' := by
  refine ⟨?_, ?_, ?_, ?_⟩ <;> rintro rfl <;> exact absurd h (by decide)

theorem outerBoundary_noCRLF (t1 : Nat) : noCRLF (outerBoundary t1) = true := by
  simp only [outerBoundary, noCRLF, List.all_append, Bool.and_eq_true]
  refine ⟨by decide, ?_⟩
  rw [List.all_eq_true]
  intro c hc
  have h := isDigit_notin c (natToString_digits t1 c hc)
  simp [h.2.1, h.2.2.1]

theorem innerBoundary_noCRLF (t2 : Nat) : noCRLF (innerBoundary t2) = true := by
  simp only [innerBoundary, noCRLF, List.all_append, Bool.and_eq_true]
  refine ⟨by decide, ?_⟩
  rw [List.all_eq_true]
  intro c hc
  have h := isDigit_notin c (natToString_digits (t2 + 1) c hc)
  simp [h.2.1, h.2.2.1]

theorem colon_notin_outerBoundary (t1 : Nat) : ':' ∉ outerBoundary t1 := by
  simp only [outerBoundary, List.mem_append]
  rintro (h | h)
  · exact absurd h (by decide)
  · exact (isDigit_notin ':' (natToString_digits t1 ':' h)).2.2.2 rfl

theorem colon_notin_innerBoundary (t2 : Nat) : ':' ∉ innerBoundary t2 := by
  simp only [innerBoundary, List.mem_append]
  rintro (h | h)
  · exact absurd h (by decide)
  · exact (isDigit_notin ':' (natToString_digits (t2 + 1) ':' h)).2.2.2 rfl

/-! ## The four boundary lines: cleanliness and distinctness -/

/-- The dash-boundary delimiter and terminator lines of the two generated
boundaries. -/
def boundaryLines (t1 t2 : Nat) : List (List Char) :=
  [dashOpen (outerBoundary t1), dashClose (outerBoundary t1),
    dashOpen (innerBoundary t2), dashClose (innerBoundary t2)]

theorem dashOpen_noCRLF (b : List Char) (h : noCRLF b = true) :
    noCRLF (dashOpen b) = true := by
  simp only [noCRLF] at h
  simp only [dashOpen, noCRLF, List.all_cons]
  rw [h]
  decide

theorem dashClose_noCRLF (b : List Char) (h : noCRLF b = true) :
    noCRLF (dashClose b) = true := by
  simp only [noCRLF] at h
  simp only [dashClose, noCRLF, List.all_cons, List.all_append]
  rw [h]
  decide

theorem boundaryLines_noCRLF (t1 t2 : Nat) :
    ∀ l ∈ boundaryLines t1 t2, noCRLF l = true := by
  intro l hl
  simp only [boundaryLines, List.mem_cons, List.not_mem_nil, or_false] at hl
  rcases hl with h | h | h | h <;> subst h
  · exact dashOpen_noCRLF _ (outerBoundary_noCRLF t1)
  · exact dashClose_noCRLF _ (outerBoundary_noCRLF t1)
  · exact dashOpen_noCRLF _ (innerBoundary_noCRLF t2)
  · exact dashClose_noCRLF _ (innerBoundary_noCRLF t2)

theorem ne_of_third (l1 l2 : List Char) (h : l1[2]? ≠ l2[2]?) : l1 ≠ l2 :=
  fun he => h (by rw [he])

theorem dashOpen_ne_dashClose (b : List Char) : dashOpen b ≠ dashClose b := by
  intro h
  have := congrArg List.length h
  simp only [dashOpen, dashClose, List.length_cons, List.length_append,
    List.length_nil] at this
  omega

theorem boundary_third_outer_open (t1 : Nat) :
    (dashOpen (outerBoundary t1))[2]? = some 'o' := rfl

theorem boundary_third_outer_close (t1 : Nat) :
    (dashClose (outerBoundary t1))[2]? = some 'o' := rfl

theorem boundary_third_inner_open (t2 : Nat) :
    (dashOpen (innerBoundary t2))[2]? = some 'i' := rfl

theorem boundary_third_inner_close (t2 : Nat) :
    (dashClose (innerBoundary t2))[2]? = some 'i' := rfl

/-- A line whose first character is not a dash is none of the four
boundary lines. -/
theorem notin_boundary_of_first (u : List Char) (t1 t2 : Nat)
    (h : u[0]? ≠ some '-') : u ∉ boundaryLines t1 t2 := by
  intro hmem
  simp only [boundaryLines, List.mem_cons, List.not_mem_nil, or_false] at hmem
  rcases hmem with h1 | h1 | h1 | h1 <;> subst h1 <;> exact h rfl

/-- A line containing a colon is none of the four boundary lines. -/
theorem notin_boundary_of_colon (u : List Char) (t1 t2 : Nat)
    (h : ':' ∈ u) : u ∉ boundaryLines t1 t2 := by
  intro hmem
  simp only [boundaryLines, List.mem_cons, List.not_mem_nil, or_false] at hmem
  rcases hmem with h1 | h1 | h1 | h1 <;> subst h1 <;>
    simp only [dashOpen, dashClose] at h <;> simp at h
  · exact colon_notin_outerBoundary t1 h
  · exact colon_notin_outerBoundary t1 h
  · exact colon_notin_innerBoundary t2 h
  · exact colon_notin_innerBoundary t2 h

/-! ## Cleanliness of the builder's header material -/

theorem noCRLF_append (a b : List Char) :
    noCRLF (a ++ b) = (noCRLF a && noCRLF b) := by
  simp [noCRLF]

theorem joinComma_noCRLF (l : List String)
    (h : ∀ s ∈ l, noCRLF s.data = true) : noCRLF (joinComma l).data = true := by
  induction l with
  | nil => decide
  | cons s rest ih =>
    cases rest with
    | nil => exact h s (by simp [joinComma])
    | cons s2 rest2 =>
      show noCRLF (s ++ ", " ++ joinComma (s2 :: rest2)).data = true
      rw [String.data_append, String.data_append, noCRLF_append, noCRLF_append]
      rw [h s (by simp), ih (fun x hx => h x (List.mem_cons_of_mem s hx))]
      decide

theorem wordEncode_noCRLF (s : String) : noCRLF (wordEncode s).data = true := by
  unfold wordEncode
  split
  · rw [String.data_append, String.data_append, noCRLF_append, noCRLF_append]
    have h1 : noCRLF (String.mk (b64Encode (strUTF8 s))).data = true := by
      rw [show (String.mk (b64Encode (strUTF8 s))).data = b64Encode (strUTF8 s) from rfl]
      rw [noCRLF, List.all_eq_true]
      intro c hc
      have := b64Encode_clean (strUTF8 s) c hc
      simp only [List.mem_cons, List.not_mem_nil, or_false, not_or] at this
      simp [this.2.1, this.2.2]
    rw [h1]
    decide
  · next hne =>
    rw [noCRLF, List.all_eq_true]
    intro c hc
    have h0 : needsEncoding s = false := by
      cases h : needsEncoding s
      · rfl
      · exact absurd h hne
    unfold needsEncoding at h0
    rw [List.any_eq_false] at h0
    have hall := h0 c hc
    rcases Decidable.em (c = '\r') with h | h
    · subst h; exact absurd hall (by decide)
    · rcases Decidable.em (c = '\n') with h2 | h2
      · subst h2; exact absurd hall (by decide)
      · simp [h, h2]

/-! ## Wrapped base64 lines: non-empty, clean, never boundary lines -/

theorem chunksAux_ne_nil (fuel : Nat) (l : List Char) :
    ∀ chunk ∈ chunksAux fuel l, chunk ≠ [] := by
  induction fuel generalizing l with
  | zero => simp [chunksAux]
  | succ fuel ih =>
    cases l with
    | nil => simp [chunksAux]
    | cons c rest =>
      intro chunk hchunk
      simp only [chunksAux, List.mem_cons] at hchunk
      rcases hchunk with h | h
      · subst h; simp
      · exact ih _ chunk h

theorem chunk_noCRLF (data : List Nat) (chunk : List Char)
    (h : chunk ∈ chunks76 (b64Encode data)) : noCRLF chunk = true := by
  rw [noCRLF, List.all_eq_true]
  intro c hc
  have hmem := chunks76_mem_sub (b64Encode data) chunk h c hc
  have := b64Encode_clean data c hmem
  simp only [List.mem_cons, List.not_mem_nil, or_false, not_or] at this
  simp [this.2.1, this.2.2]

theorem chunk_notin_boundary (data : List Nat) (chunk : List Char)
    (h : chunk ∈ chunks76 (b64Encode data)) (t1 t2 : Nat) :
    chunk ∉ boundaryLines t1 t2 := by
  apply notin_boundary_of_first
  cases hc : chunk with
  | nil => exact absurd hc (chunksAux_ne_nil _ _ chunk h)
  | cons c rest =>
    have hcm : c ∈ chunk := by rw [hc]; simp
    have hmem := chunks76_mem_sub (b64Encode data) chunk h c hcm
    have hclean := b64Encode_clean data c hmem
    simp only [List.mem_cons, List.not_mem_nil, or_false, not_or] at hclean
    simp [hclean.1]

/-! ## The line decomposition of a unit stream -/

theorem noCRLF_imp_crlfOk (u : List Char) (h : noCRLF u = true) :
    crlfOk u = true := by
  rw [crlfOk, crlfLines_of_noCRLF u h]
  simp [h]

theorem flatMap_crlfLines_all_noCRLF (us : List (List Char))
    (h : ∀ u ∈ us, noCRLF u = true) : us.flatMap crlfLines = us := by
  induction us with
  | nil => rfl
  | cons u rest ih =>
    simp only [List.flatMap_cons]
    rw [crlfLines_of_noCRLF u (h u (by simp)),
      ih (fun x hx => h x (List.mem_cons_of_mem u hx))]
    rfl

/-- CRLF discipline of a unit stream: it holds as soon as every unit is
CRLF-disciplined. -/
theorem crlfOk_flat (us : List (List Char))
    (h : ∀ u ∈ us, crlfOk u = true) :
    crlfOk (us.flatMap fun u => u ++ ['\r', '\n']) = true := by
  rw [crlfOk, crlfLines_flat, List.all_append, Bool.and_eq_true]
  constructor
  · rw [List.all_eq_true]
    intro l hl
    rw [List.mem_flatMap] at hl
    obtain ⟨u, hu, hlu⟩ := hl
    have := h u hu
    rw [crlfOk, List.all_eq_true] at this
    exact this l hlu
  · decide

/-- Membership form of line counting: a line of the decomposition of a
unit stream is a line of one of the units. -/
theorem mem_lines_flat (us : List (List Char)) (l : List Char)
    (h : l ∈ (us.flatMap fun u => u ++ ['\r', '\n']).foldr crlfStep [[]]) :
    (∃ u ∈ us, l ∈ crlfLines u) ∨ l = [] := by
  have := crlfLines_flat us
  rw [crlfLines] at this
  rw [this, List.mem_append] at h
  rcases h with h | h
  · rw [List.mem_flatMap] at h
    obtain ⟨u, hu, hlu⟩ := h
    exact Or.inl ⟨u, hu, hlu⟩
  · simp only [List.mem_cons, List.not_mem_nil, or_false] at h
    exact Or.inr h

/-! ## Hygiene: the inputs under which the builder's output is a
well-formed MIME stream

The boundary tokens embed wall-clock nanosecond readings, so a body that
happens to contain one of the four boundary delimiter lines, or a body
with bare LF/CR line endings, corrupts the multipart structure (see the
counterexamples).  The hygiene conditions exclude exactly that: header
material carries no CR/LF, bodies are CRLF-disciplined, and no body line
coincides with a generated boundary line. -/

structure BuildHygiene (e : Email) (t1 t2 : Nat) (dateStr host : String) :
    Prop where
  from_clean : noCRLF e.From.data = true
  to_clean : ∀ s ∈ e.To, noCRLF s.data = true
  cc_clean : ∀ s ∈ e.Cc, noCRLF s.data = true
  date_clean : noCRLF dateStr.data = true
  host_clean : noCRLF host.data = true
  headers_clean : ∀ kv ∈ e.Headers,
    noCRLF (kv.1 : String).data = true ∧ noCRLF (kv.2 : String).data = true
  atts_clean : ∀ a ∈ e.Attachments,
    noCRLF a.ContentType.data = true ∧ noCRLF a.Filename.data = true
  text_crlf : crlfOk e.TextBody.data = true
  html_crlf : crlfOk e.HTMLBody.data = true
  text_lines : ∀ l ∈ crlfLines e.TextBody.data, l ∉ boundaryLines t1 t2
  html_lines : ∀ l ∈ crlfLines e.HTMLBody.data, l ∉ boundaryLines t1 t2

theorem natToString_noCRLF (n : Nat) : noCRLF (toString n).data = true := by
  rw [noCRLF, List.all_eq_true]
  intro c hc
  have h := isDigit_notin c (natToString_digits n c hc)
  simp [h.2.1, h.2.2.1]

theorem notin_boundary_first_char (u : List Char) (c : Char) (t1 t2 : Nat)
    (hu : u[0]? = some c) (hc : c ≠ '-') : u ∉ boundaryLines t1 t2 :=
  notin_boundary_of_first u t1 t2 (by rw [hu]; simp [hc])

theorem headerUnits_clean (e : Email) (dateStr : String) (msgId : Nat)
    (host : String) (t1 t2 : Nat) (hyg : BuildHygiene e t1 t2 dateStr host) :
    ∀ u ∈ headerUnits e dateStr msgId host,
      noCRLF u = true ∧ u ∉ boundaryLines t1 t2 := by
  have hfrom : noCRLF ("From: ".data ++ e.From.data) = true ∧
      ("From: ".data ++ e.From.data) ∉ boundaryLines t1 t2 := by
    refine ⟨?_, notin_boundary_first_char _ 'F' t1 t2 rfl (by decide)⟩
    rw [noCRLF_append, hyg.from_clean]
    decide
  have hto : noCRLF ("To: ".data ++ (joinComma e.To).data) = true ∧
      ("To: ".data ++ (joinComma e.To).data) ∉ boundaryLines t1 t2 := by
    refine ⟨?_, notin_boundary_first_char _ 'T' t1 t2 rfl (by decide)⟩
    rw [noCRLF_append, joinComma_noCRLF e.To hyg.to_clean]
    decide
  have hcc : ∀ u ∈ (if e.Cc.isEmpty then ([] : List (List Char))
      else ["Cc: ".data ++ (joinComma e.Cc).data]),
      noCRLF u = true ∧ u ∉ boundaryLines t1 t2 := by
    split
    · simp
    · intro u hu
      simp only [List.mem_cons, List.not_mem_nil, or_false] at hu
      subst hu
      refine ⟨?_, notin_boundary_first_char _ 'C' t1 t2 rfl (by decide)⟩
      rw [noCRLF_append, joinComma_noCRLF e.Cc hyg.cc_clean]
      decide
  have hsub : noCRLF ("Subject: ".data ++ (wordEncode e.Subject).data) = true ∧
      ("Subject: ".data ++ (wordEncode e.Subject).data) ∉ boundaryLines t1 t2 := by
    refine ⟨?_, notin_boundary_first_char _ 'S' t1 t2 rfl (by decide)⟩
    rw [noCRLF_append, wordEncode_noCRLF e.Subject]
    decide
  have hdate : noCRLF ("Date: ".data ++ dateStr.data) = true ∧
      ("Date: ".data ++ dateStr.data) ∉ boundaryLines t1 t2 := by
    refine ⟨?_, notin_boundary_first_char _ 'D' t1 t2 rfl (by decide)⟩
    rw [noCRLF_append, hyg.date_clean]
    decide
  have hmsg : noCRLF ("Message-ID: <".data ++ (toString msgId).data ++
        '@' :: host.data ++ ['>']) = true ∧
      ("Message-ID: <".data ++ (toString msgId).data ++
        '@' :: host.data ++ ['>']) ∉ boundaryLines t1 t2 := by
    refine ⟨?_, notin_boundary_first_char _ 'M' t1 t2 rfl (by decide)⟩
    rw [noCRLF_append, noCRLF_append, noCRLF_append]
    rw [show noCRLF ('@' :: host.data) = (noCRLF ['@'] && noCRLF host.data) from
      by simp [noCRLF]]
    rw [natToString_noCRLF, hyg.host_clean]
    decide
  have hhdr : ∀ u ∈ e.Headers.map headerLineData,
      noCRLF u = true ∧ u ∉ boundaryLines t1 t2 := by
    intro u hu
    rw [List.mem_map] at hu
    obtain ⟨kv, hkv, hukv⟩ := hu
    subst hukv
    obtain ⟨h1, h2⟩ := hyg.headers_clean kv hkv
    constructor
    · rw [headerLineData, noCRLF_append]
      rw [show noCRLF (':' :: ' ' :: (kv.2 : String).data) =
        (noCRLF [':', ' '] && noCRLF (kv.2 : String).data) from rfl]
      rw [h1, h2]
      decide
    · refine notin_boundary_of_colon _ t1 t2 ?_
      rw [headerLineData]
      exact List.mem_append_right _ (by simp)
  have hprio : ∀ u ∈ priorityUnits e.Priority,
      noCRLF u = true ∧ u ∉ boundaryLines t1 t2 := by
    cases e.Priority with
    | low =>
      intro u hu
      simp only [priorityUnits, List.mem_cons, List.not_mem_nil, or_false] at hu
      rcases hu with h | h <;> subst h
      · exact ⟨by decide, notin_boundary_first_char _ 'X' t1 t2 rfl (by decide)⟩
      · exact ⟨by decide, notin_boundary_first_char _ 'I' t1 t2 rfl (by decide)⟩
    | normal => simp [priorityUnits]
    | high =>
      intro u hu
      simp only [priorityUnits, List.mem_cons, List.not_mem_nil, or_false] at hu
      rcases hu with h | h <;> subst h
      · exact ⟨by decide, notin_boundary_first_char _ 'X' t1 t2 rfl (by decide)⟩
      · exact ⟨by decide, notin_boundary_first_char _ 'I' t1 t2 rfl (by decide)⟩
  have hmime : noCRLF "MIME-Version: 1.0".data = true ∧
      ("MIME-Version: 1.0".data : List Char) ∉ boundaryLines t1 t2 :=
    ⟨by decide, notin_boundary_first_char _ 'M' t1 t2 rfl (by decide)⟩
  intro u hu
  rw [headerUnits] at hu
  rcases List.mem_append.mp hu with hu | hu
  · rcases List.mem_append.mp hu with hu | hu
    · rcases List.mem_append.mp hu with hu | hu
      · rcases List.mem_append.mp hu with hu | hu
        · rcases List.mem_append.mp hu with hu | hu
          · rcases List.mem_cons.mp hu with h | h
            · subst h; exact hfrom
            · simp only [List.mem_cons, List.not_mem_nil, or_false] at h
              subst h; exact hto
          · exact hcc u hu
        · rcases List.mem_cons.mp hu with h | h
          · subst h; exact hsub
          · rcases List.mem_cons.mp h with h | h
            · subst h; exact hdate
            · simp only [List.mem_cons, List.not_mem_nil, or_false] at h
              subst h; exact hmsg
      · exact hhdr u hu
    · exact hprio u hu
  · simp only [List.mem_cons, List.not_mem_nil, or_false] at hu
    subst hu; exact hmime

/-! ## The message's line decomposition, explicitly -/

/-- The lines of the `multipart/alternative` sub-parts as a receiver sees
them. -/
def altLinesCore (e : Email) (inner : List Char) : List (List Char) :=
  (if e.TextBody = "" then [] else
    [dashOpen inner, ctTextLine, []] ++ crlfLines e.TextBody.data ++ [[]])
  ++ (if e.HTMLBody = "" then [] else
    [dashOpen inner, ctHtmlLine, []] ++ crlfLines e.HTMLBody.data ++ [[]])

/-- The lines of the MIME body. -/
def bodyLines (e : Email) (outer inner : List Char) : List (List Char) :=
  if e.Attachments.isEmpty then
    [ctAltLine inner, []] ++ altLinesCore e inner ++ [dashClose inner]
  else
    [ctMixedLine outer, [], dashOpen outer, ctAltLine inner, []]
    ++ altLinesCore e inner ++ [dashClose inner, []]
    ++ e.Attachments.flatMap (fun a => dashOpen outer :: attPartLines a)
    ++ [dashClose outer]

theorem ctAltLine_noCRLF (inner : List Char) (h : noCRLF inner = true) :
    noCRLF (ctAltLine inner) = true := by
  rw [ctAltLine, noCRLF_append, noCRLF_append, h]
  decide

theorem ctMixedLine_noCRLF (outer : List Char) (h : noCRLF outer = true) :
    noCRLF (ctMixedLine outer) = true := by
  rw [ctMixedLine, noCRLF_append, noCRLF_append, h]
  decide

theorem attUnits_all_noCRLF (outer : List Char) (att : Attachment)
    (hout : noCRLF outer = true)
    (h1 : noCRLF att.ContentType.data = true)
    (h2 : noCRLF att.Filename.data = true) :
    ∀ u ∈ attUnits outer att, noCRLF u = true := by
  rw [attUnits]
  refine List.forall_mem_append.mpr ⟨List.forall_mem_append.mpr ⟨?_, ?_⟩, ?_⟩
  · intro u hu
    simp only [List.mem_cons, List.not_mem_nil, or_false] at hu
    rcases hu with h | h | h | h | h <;> subst h
    · exact dashOpen_noCRLF outer hout
    · simp only [noCRLF_append]
      rw [h1, h2]
      decide
    · decide
    · simp only [noCRLF_append]
      rw [h2]
      decide
    · decide
  · exact fun chunk hc => chunk_noCRLF att.Data chunk hc
  · intro u hu
    simp only [List.mem_cons, List.not_mem_nil, or_false] at hu
    subst hu
    decide

theorem altSubUnits_flatMap (e : Email) (inner : List Char)
    (hin : noCRLF inner = true) :
    (altSubUnits e inner).flatMap crlfLines = altLinesCore e inner := by
  rw [altSubUnits, altLinesCore, List.flatMap_append]
  refine congrArg₂ _ ?_ ?_
  · split
    · rfl
    · simp only [List.flatMap_cons, List.flatMap_nil]
      rw [crlfLines_of_noCRLF _ (dashOpen_noCRLF inner hin),
        crlfLines_of_noCRLF _ (show noCRLF ctTextLine = true by decide),
        crlfLines_of_noCRLF ([] : List Char) (by decide)]
      simp
  · split
    · rfl
    · simp only [List.flatMap_cons, List.flatMap_nil]
      rw [crlfLines_of_noCRLF _ (dashOpen_noCRLF inner hin),
        crlfLines_of_noCRLF _ (show noCRLF ctHtmlLine = true by decide),
        crlfLines_of_noCRLF ([] : List Char) (by decide)]
      simp

theorem attachments_flatMap_lines (outer : List Char) (atts : List Attachment)
    (hout : noCRLF outer = true)
    (hclean : ∀ a ∈ atts,
      noCRLF a.ContentType.data = true ∧ noCRLF a.Filename.data = true) :
    (atts.flatMap (attUnits outer)).flatMap crlfLines =
      atts.flatMap fun a => dashOpen outer :: attPartLines a := by
  induction atts with
  | nil => rfl
  | cons a rest ih =>
    simp only [List.flatMap_cons, List.flatMap_append]
    rw [flatMap_crlfLines_all_noCRLF (attUnits outer a)
      (attUnits_all_noCRLF outer a hout (hclean a (by simp)).1
        (hclean a (by simp)).2),
      ih (fun x hx => hclean x (List.mem_cons_of_mem a hx))]
    rfl

/-- With hygienic inputs, the CRLF-line decomposition of the built message
is the header block, the body lines, and the final empty segment. -/
theorem crlfLines_buildMessage (e : Email) (t1 t2 : Nat) (dateStr : String)
    (msgId : Nat) (host : String)
    (hyg : BuildHygiene e t1 t2 dateStr host) :
    crlfLines (buildMessageData e t1 t2 dateStr msgId host) =
      headerUnits e dateStr msgId host ++
        bodyLines e (outerBoundary t1) (innerBoundary t2) ++ [[]] := by
  rw [buildMessageData, crlfLines_flat, buildUnits, List.flatMap_append]
  rw [flatMap_crlfLines_all_noCRLF (headerUnits e dateStr msgId host)
    (fun u hu => (headerUnits_clean e dateStr msgId host t1 t2 hyg u hu).1)]
  refine congrArg₂ _ (congrArg₂ _ rfl ?_) rfl
  rw [bodyUnits, bodyLines]
  split
  · simp only [List.flatMap_append, List.flatMap_cons, List.flatMap_nil]
    rw [altSubUnits_flatMap e _ (innerBoundary_noCRLF t2),
      crlfLines_of_noCRLF _ (ctAltLine_noCRLF _ (innerBoundary_noCRLF t2)),
      crlfLines_of_noCRLF _ (dashClose_noCRLF _ (innerBoundary_noCRLF t2)),
      crlfLines_of_noCRLF ([] : List Char) (by decide)]
    simp
  · simp only [List.flatMap_append, List.flatMap_cons, List.flatMap_nil]
    rw [altSubUnits_flatMap e _ (innerBoundary_noCRLF t2),
      attachments_flatMap_lines (outerBoundary t1) e.Attachments
        (outerBoundary_noCRLF t1) hyg.atts_clean,
      crlfLines_of_noCRLF _ (ctMixedLine_noCRLF _ (outerBoundary_noCRLF t1)),
      crlfLines_of_noCRLF _ (dashOpen_noCRLF _ (outerBoundary_noCRLF t1)),
      crlfLines_of_noCRLF _ (ctAltLine_noCRLF _ (innerBoundary_noCRLF t2)),
      crlfLines_of_noCRLF _ (dashClose_noCRLF _ (innerBoundary_noCRLF t2)),
      crlfLines_of_noCRLF _ (dashClose_noCRLF _ (outerBoundary_noCRLF t1)),
      crlfLines_of_noCRLF ([] : List Char) (by decide)]
    simp

/-! ## Counting boundary lines -/

theorem ne_all_of_notin (u : List Char) (t1 t2 : Nat)
    (h : u ∉ boundaryLines t1 t2) :
    u ≠ dashOpen (outerBoundary t1) ∧ u ≠ dashClose (outerBoundary t1) ∧
      u ≠ dashOpen (innerBoundary t2) ∧ u ≠ dashClose (innerBoundary t2) := by
  simp only [boundaryLines, List.mem_cons, List.not_mem_nil, or_false,
    not_or] at h
  exact h

theorem open_outer_ne_open_inner (t1 t2 : Nat) :
    dashOpen (outerBoundary t1) ≠ dashOpen (innerBoundary t2) :=
  ne_of_third _ _ (by
    rw [boundary_third_outer_open, boundary_third_inner_open]; decide)

theorem open_outer_ne_close_inner (t1 t2 : Nat) :
    dashOpen (outerBoundary t1) ≠ dashClose (innerBoundary t2) :=
  ne_of_third _ _ (by
    rw [boundary_third_outer_open, boundary_third_inner_close]; decide)

theorem close_outer_ne_open_inner (t1 t2 : Nat) :
    dashClose (outerBoundary t1) ≠ dashOpen (innerBoundary t2) :=
  ne_of_third _ _ (by
    rw [boundary_third_outer_close, boundary_third_inner_open]; decide)

theorem close_outer_ne_close_inner (t1 t2 : Nat) :
    dashClose (outerBoundary t1) ≠ dashClose (innerBoundary t2) :=
  ne_of_third _ _ (by
    rw [boundary_third_outer_close, boundary_third_inner_close]; decide)

theorem count_zero_of_notin_boundary (ls : List (List Char)) (t1 t2 : Nat)
    (h : ∀ l ∈ ls, l ∉ boundaryLines t1 t2) (target : List Char)
    (ht : target ∈ boundaryLines t1 t2) : ls.count target = 0 :=
  List.count_eq_zero.mpr fun hc => h target hc ht

theorem headerUnits_count_zero (e : Email) (dateStr : String) (msgId : Nat)
    (host : String) (t1 t2 : Nat) (hyg : BuildHygiene e t1 t2 dateStr host)
    (target : List Char) (ht : target ∈ boundaryLines t1 t2) :
    (headerUnits e dateStr msgId host).count target = 0 :=
  count_zero_of_notin_boundary _ t1 t2
    (fun u hu => (headerUnits_clean e dateStr msgId host t1 t2 hyg u hu).2)
    target ht

theorem attPartLines_notin (a : Attachment) (t1 t2 : Nat) :
    ∀ l ∈ attPartLines a, l ∉ boundaryLines t1 t2 := by
  rw [attPartLines]
  refine List.forall_mem_append.mpr ⟨List.forall_mem_append.mpr ⟨?_, ?_⟩, ?_⟩
  · intro l hl
    simp only [List.mem_cons, List.not_mem_nil, or_false] at hl
    rcases hl with h | h | h | h <;> subst h
    · exact notin_boundary_first_char _ 'C' t1 t2 rfl (by decide)
    · exact notin_boundary_first_char _ 'C' t1 t2 rfl (by decide)
    · exact notin_boundary_first_char _ 'C' t1 t2 rfl (by decide)
    · exact notin_boundary_of_first _ t1 t2 (by simp)
  · exact fun chunk hc => chunk_notin_boundary a.Data chunk hc t1 t2
  · intro l hl
    simp only [List.mem_cons, List.not_mem_nil, or_false] at hl
    subst hl
    exact notin_boundary_of_first _ t1 t2 (by simp)

theorem attRegion_count (atts : List Attachment) (t1 t2 : Nat)
    (target : List Char) (ht : target ∈ boundaryLines t1 t2) :
    (atts.flatMap fun a =>
        dashOpen (outerBoundary t1) :: attPartLines a).count target =
      (if target = dashOpen (outerBoundary t1) then atts.length else 0) := by
  induction atts with
  | nil => simp
  | cons a rest ih =>
    simp only [List.flatMap_cons, List.count_append, List.count_cons, ih]
    rw [List.count_eq_zero.mpr
      (fun hc => attPartLines_notin a t1 t2 target hc ht)]
    by_cases h : target = dashOpen (outerBoundary t1)
    · subst h
      simp
      omega
    · have hbeq : (dashOpen (outerBoundary t1) == target) = false := by
        simp only [beq_eq_false_iff_ne, ne_eq]
        exact fun he => h he.symm
      simp [h, hbeq]

theorem crlfLines_body_count_zero (body : List Char) (t1 t2 : Nat)
    (h : ∀ l ∈ crlfLines body, l ∉ boundaryLines t1 t2) (target : List Char)
    (ht : target ∈ boundaryLines t1 t2) :
    (crlfLines body).count target = 0 :=
  count_zero_of_notin_boundary _ t1 t2 h target ht

theorem altLinesCore_count (e : Email) (t1 t2 : Nat)
    (htext : ∀ l ∈ crlfLines e.TextBody.data, l ∉ boundaryLines t1 t2)
    (hhtml : ∀ l ∈ crlfLines e.HTMLBody.data, l ∉ boundaryLines t1 t2)
    (target : List Char) (ht : target ∈ boundaryLines t1 t2) :
    (altLinesCore e (innerBoundary t2)).count target =
      (if target = dashOpen (innerBoundary t2) then
        (if e.TextBody = "" then 0 else 1) +
          (if e.HTMLBody = "" then 0 else 1) else 0) := by
  have hct := ne_all_of_notin ctTextLine t1 t2
    (notin_boundary_first_char _ 'C' t1 t2 rfl (by decide))
  have hch := ne_all_of_notin ctHtmlLine t1 t2
    (notin_boundary_first_char _ 'C' t1 t2 rfl (by decide))
  have hbl := ne_all_of_notin [] t1 t2 (notin_boundary_of_first _ t1 t2 (by simp))
  have htc := crlfLines_body_count_zero e.TextBody.data t1 t2 htext target ht
  have hhc := crlfLines_body_count_zero e.HTMLBody.data t1 t2 hhtml target ht
  have hne_ct : ¬ (ctTextLine == target) = true := by
    simp only [beq_iff_eq]
    intro he
    rw [← he] at ht
    exact notin_boundary_first_char _ 'C' t1 t2 rfl (by decide) ht
  have hne_ch : ¬ (ctHtmlLine == target) = true := by
    simp only [beq_iff_eq]
    intro he
    rw [← he] at ht
    exact notin_boundary_first_char _ 'C' t1 t2 rfl (by decide) ht
  have hne_bl : ¬ (([] : List Char) == target) = true := by
    simp only [beq_iff_eq]
    intro he
    rw [← he] at ht
    exact notin_boundary_of_first _ t1 t2 (by simp) ht
  rw [altLinesCore]
  by_cases htar : target = dashOpen (innerBoundary t2)
  · subst htar
    rw [if_pos rfl]
    split_ifs with h1 h2 h2 <;>
      simp [List.count_append, List.count_cons, htc, hhc, hne_ct, hne_ch,
        hne_bl] <;>
      omega
  · have hbeq : (dashOpen (innerBoundary t2) == target) = false := by
      simp only [beq_eq_false_iff_ne, ne_eq]
      exact fun he => htar he.symm
    rw [if_neg htar]
    split_ifs with h1 h2 h2 <;>
      simp [List.count_append, List.count_cons, htc, hhc, hne_ct, hne_ch,
        hne_bl, hbeq]

/-! ## C5 — well-formedness of the built byte stream -/

theorem altSubUnits_all_crlfOk (e : Email) (inner : List Char)
    (hin : noCRLF inner = true) (htext : crlfOk e.TextBody.data = true)
    (hhtml : crlfOk e.HTMLBody.data = true) :
    ∀ u ∈ altSubUnits e inner, crlfOk u = true := by
  rw [altSubUnits]
  refine List.forall_mem_append.mpr ⟨?_, ?_⟩
  · split
    · simp
    · intro u hu
      simp only [List.mem_cons, List.not_mem_nil, or_false] at hu
      rcases hu with h | h | h | h | h <;> subst h
      · exact noCRLF_imp_crlfOk _ (dashOpen_noCRLF inner hin)
      · decide
      · decide
      · exact htext
      · decide
  · split
    · simp
    · intro u hu
      simp only [List.mem_cons, List.not_mem_nil, or_false] at hu
      rcases hu with h | h | h | h | h <;> subst h
      · exact noCRLF_imp_crlfOk _ (dashOpen_noCRLF inner hin)
      · decide
      · decide
      · exact hhtml
      · decide

theorem bodyUnits_all_crlfOk (e : Email) (t1 t2 : Nat)
    (hatts : ∀ a ∈ e.Attachments,
      noCRLF a.ContentType.data = true ∧ noCRLF a.Filename.data = true)
    (htext : crlfOk e.TextBody.data = true)
    (hhtml : crlfOk e.HTMLBody.data = true) :
    ∀ u ∈ bodyUnits e (outerBoundary t1) (innerBoundary t2),
      crlfOk u = true := by
  have hin := innerBoundary_noCRLF t2
  have hout := outerBoundary_noCRLF t1
  rw [bodyUnits]
  split
  · refine List.forall_mem_append.mpr ⟨List.forall_mem_append.mpr ⟨?_, ?_⟩, ?_⟩
    · intro u hu
      simp only [List.mem_cons, List.not_mem_nil, or_false] at hu
      rcases hu with h | h <;> subst h
      · exact noCRLF_imp_crlfOk _ (ctAltLine_noCRLF _ hin)
      · decide
    · exact altSubUnits_all_crlfOk e _ hin htext hhtml
    · intro u hu
      simp only [List.mem_cons, List.not_mem_nil, or_false] at hu
      subst hu
      exact noCRLF_imp_crlfOk _ (dashClose_noCRLF _ hin)
  · refine List.forall_mem_append.mpr ⟨List.forall_mem_append.mpr
      ⟨List.forall_mem_append.mpr ⟨List.forall_mem_append.mpr ⟨?_, ?_⟩, ?_⟩, ?_⟩, ?_⟩
    · intro u hu
      simp only [List.mem_cons, List.not_mem_nil, or_false] at hu
      rcases hu with h | h | h | h | h <;> subst h
      · exact noCRLF_imp_crlfOk _ (ctMixedLine_noCRLF _ hout)
      · decide
      · exact noCRLF_imp_crlfOk _ (dashOpen_noCRLF _ hout)
      · exact noCRLF_imp_crlfOk _ (ctAltLine_noCRLF _ hin)
      · decide
    · exact altSubUnits_all_crlfOk e _ hin htext hhtml
    · intro u hu
      simp only [List.mem_cons, List.not_mem_nil, or_false] at hu
      rcases hu with h | h <;> subst h
      · exact noCRLF_imp_crlfOk _ (dashClose_noCRLF _ hin)
      · decide
    · intro u hu
      rw [List.mem_flatMap] at hu
      obtain ⟨a, ha, hua⟩ := hu
      exact noCRLF_imp_crlfOk u
        (attUnits_all_noCRLF _ a hout (hatts a ha).1 (hatts a ha).2 u hua)
    · intro u hu
      simp only [List.mem_cons, List.not_mem_nil, or_false] at hu
      subst hu
      exact noCRLF_imp_crlfOk _ (dashClose_noCRLF _ hout)

/-- C5 (amended).  For every valid Email built under hygienic inputs —
header fields free of CR/LF, bodies CRLF-disciplined, and no body line
equal to one of the generated boundary delimiter lines (the conditions the
counterexample shows are necessary) — the built stream uses CRLF for
every line terminator; each boundary's delimiter line `--boundary` occurs
exactly once per part it introduces (the inner boundary once per present
body sub-part; the outer boundary once for the alternative block plus
once per attachment, and not at all without attachments); and each
declared boundary's terminator `--boundary--` occurs exactly once. -/
theorem c5_builder_well_formed (e : Email) (t1 t2 : Nat) (dateStr : String)
    (msgId : Nat) (host : String) (hv : e.Validate = none)
    (hyg : BuildHygiene e t1 t2 dateStr host) :
    crlfOk (buildMessageData e t1 t2 dateStr msgId host) = true
    ∧ (crlfLines (buildMessageData e t1 t2 dateStr msgId host)).count
        (dashOpen (innerBoundary t2)) =
        (if e.TextBody = "" then 0 else 1) + (if e.HTMLBody = "" then 0 else 1)
    ∧ (crlfLines (buildMessageData e t1 t2 dateStr msgId host)).count
        (dashClose (innerBoundary t2)) = 1
    ∧ (crlfLines (buildMessageData e t1 t2 dateStr msgId host)).count
        (dashOpen (outerBoundary t1)) =
        (if e.Attachments.isEmpty then 0 else 1 + e.Attachments.length)
    ∧ (crlfLines (buildMessageData e t1 t2 dateStr msgId host)).count
        (dashClose (outerBoundary t1)) =
        (if e.Attachments.isEmpty then 0 else 1) := by
  have hcrlf : crlfOk (buildMessageData e t1 t2 dateStr msgId host) = true := by
    rw [buildMessageData]
    refine crlfOk_flat _ ?_
    rw [buildUnits]
    refine List.forall_mem_append.mpr ⟨?_, ?_⟩
    · exact fun u hu => noCRLF_imp_crlfOk u
        (headerUnits_clean e dateStr msgId host t1 t2 hyg u hu).1
    · exact bodyUnits_all_crlfOk e t1 t2 hyg.atts_clean hyg.text_crlf
        hyg.html_crlf
  have h_ctA := ne_all_of_notin (ctAltLine (innerBoundary t2)) t1 t2
    (notin_boundary_first_char _ 'C' t1 t2 rfl (by decide))
  have h_ctM := ne_all_of_notin (ctMixedLine (outerBoundary t1)) t1 t2
    (notin_boundary_first_char _ 'C' t1 t2 rfl (by decide))
  have h_bl := ne_all_of_notin [] t1 t2
    (notin_boundary_of_first _ t1 t2 (by simp))
  have h_oic : dashOpen (innerBoundary t2) ≠ dashClose (innerBoundary t2) :=
    dashOpen_ne_dashClose _
  have h_ooc : dashOpen (outerBoundary t1) ≠ dashClose (outerBoundary t1) :=
    dashOpen_ne_dashClose _
  have h_oo_oi := open_outer_ne_open_inner t1 t2
  have h_oo_ci := open_outer_ne_close_inner t1 t2
  have h_co_oi := close_outer_ne_open_inner t1 t2
  have h_co_ci := close_outer_ne_close_inner t1 t2
  refine ⟨hcrlf, ?_, ?_, ?_, ?_⟩ <;>
    rw [crlfLines_buildMessage e t1 t2 dateStr msgId host hyg,
      List.count_append, List.count_append,
      headerUnits_count_zero e dateStr msgId host t1 t2 hyg _
        (by simp [boundaryLines]), bodyLines]
  · have haltc := altLinesCore_count e t1 t2 hyg.text_lines hyg.html_lines
      (dashOpen (innerBoundary t2)) (by simp [boundaryLines])
    rw [if_pos rfl] at haltc
    have hattr := attRegion_count e.Attachments t1 t2
      (dashOpen (innerBoundary t2)) (by simp [boundaryLines])
    rw [if_neg (Ne.symm h_oo_oi)] at hattr
    split <;>
      simp [List.count_append, List.count_cons, haltc, hattr,
        h_ctA.1,
        h_ctA.2.1,
        h_ctA.2.2.1,
        h_ctA.2.2.2,
        h_ctM.1,
        h_ctM.2.1,
        h_ctM.2.2.1,
        h_ctM.2.2.2,
        h_bl.1,
        h_bl.2.1,
        h_bl.2.2.1,
        h_bl.2.2.2,
        h_oic,
        h_ooc,
        h_oo_oi,
        h_oo_ci,
        h_co_oi,
        h_co_ci,
        Ne.symm (h_ctA.1),
        Ne.symm (h_ctA.2.1),
        Ne.symm (h_ctA.2.2.1),
        Ne.symm (h_ctA.2.2.2),
        Ne.symm (h_ctM.1),
        Ne.symm (h_ctM.2.1),
        Ne.symm (h_ctM.2.2.1),
        Ne.symm (h_ctM.2.2.2),
        Ne.symm (h_bl.1),
        Ne.symm (h_bl.2.1),
        Ne.symm (h_bl.2.2.1),
        Ne.symm (h_bl.2.2.2),
        Ne.symm (h_oic),
        Ne.symm (h_ooc),
        Ne.symm (h_oo_oi),
        Ne.symm (h_oo_ci),
        Ne.symm (h_co_oi),
        Ne.symm (h_co_ci)] <;>
      omega
  · have haltc := altLinesCore_count e t1 t2 hyg.text_lines hyg.html_lines
      (dashClose (innerBoundary t2)) (by simp [boundaryLines])
    rw [if_neg (Ne.symm h_oic)] at haltc
    have hattr := attRegion_count e.Attachments t1 t2
      (dashClose (innerBoundary t2)) (by simp [boundaryLines])
    rw [if_neg (Ne.symm h_oo_ci)] at hattr
    split <;>
      simp [List.count_append, List.count_cons, haltc, hattr,
        h_ctA.1,
        h_ctA.2.1,
        h_ctA.2.2.1,
        h_ctA.2.2.2,
        h_ctM.1,
        h_ctM.2.1,
        h_ctM.2.2.1,
        h_ctM.2.2.2,
        h_bl.1,
        h_bl.2.1,
        h_bl.2.2.1,
        h_bl.2.2.2,
        h_oic,
        h_ooc,
        h_oo_oi,
        h_oo_ci,
        h_co_oi,
        h_co_ci,
        Ne.symm (h_ctA.1),
        Ne.symm (h_ctA.2.1),
        Ne.symm (h_ctA.2.2.1),
        Ne.symm (h_ctA.2.2.2),
        Ne.symm (h_ctM.1),
        Ne.symm (h_ctM.2.1),
        Ne.symm (h_ctM.2.2.1),
        Ne.symm (h_ctM.2.2.2),
        Ne.symm (h_bl.1),
        Ne.symm (h_bl.2.1),
        Ne.symm (h_bl.2.2.1),
        Ne.symm (h_bl.2.2.2),
        Ne.symm (h_oic),
        Ne.symm (h_ooc),
        Ne.symm (h_oo_oi),
        Ne.symm (h_oo_ci),
        Ne.symm (h_co_oi),
        Ne.symm (h_co_ci)] <;>
      omega
  · have haltc := altLinesCore_count e t1 t2 hyg.text_lines hyg.html_lines
      (dashOpen (outerBoundary t1)) (by simp [boundaryLines])
    rw [if_neg h_oo_oi] at haltc
    have hattr := attRegion_count e.Attachments t1 t2
      (dashOpen (outerBoundary t1)) (by simp [boundaryLines])
    rw [if_pos rfl] at hattr
    split <;>
      simp [List.count_append, List.count_cons, haltc, hattr,
        h_ctA.1,
        h_ctA.2.1,
        h_ctA.2.2.1,
        h_ctA.2.2.2,
        h_ctM.1,
        h_ctM.2.1,
        h_ctM.2.2.1,
        h_ctM.2.2.2,
        h_bl.1,
        h_bl.2.1,
        h_bl.2.2.1,
        h_bl.2.2.2,
        h_oic,
        h_ooc,
        h_oo_oi,
        h_oo_ci,
        h_co_oi,
        h_co_ci,
        Ne.symm (h_ctA.1),
        Ne.symm (h_ctA.2.1),
        Ne.symm (h_ctA.2.2.1),
        Ne.symm (h_ctA.2.2.2),
        Ne.symm (h_ctM.1),
        Ne.symm (h_ctM.2.1),
        Ne.symm (h_ctM.2.2.1),
        Ne.symm (h_ctM.2.2.2),
        Ne.symm (h_bl.1),
        Ne.symm (h_bl.2.1),
        Ne.symm (h_bl.2.2.1),
        Ne.symm (h_bl.2.2.2),
        Ne.symm (h_oic),
        Ne.symm (h_ooc),
        Ne.symm (h_oo_oi),
        Ne.symm (h_oo_ci),
        Ne.symm (h_co_oi),
        Ne.symm (h_co_ci)] <;>
      omega
  · have haltc := altLinesCore_count e t1 t2 hyg.text_lines hyg.html_lines
      (dashClose (outerBoundary t1)) (by simp [boundaryLines])
    rw [if_neg h_co_oi] at haltc
    have hattr := attRegion_count e.Attachments t1 t2
      (dashClose (outerBoundary t1)) (by simp [boundaryLines])
    rw [if_neg (Ne.symm h_ooc)] at hattr
    split <;>
      simp [List.count_append, List.count_cons, haltc, hattr,
        h_ctA.1,
        h_ctA.2.1,
        h_ctA.2.2.1,
        h_ctA.2.2.2,
        h_ctM.1,
        h_ctM.2.1,
        h_ctM.2.2.1,
        h_ctM.2.2.2,
        h_bl.1,
        h_bl.2.1,
        h_bl.2.2.1,
        h_bl.2.2.2,
        h_oic,
        h_ooc,
        h_oo_oi,
        h_oo_ci,
        h_co_oi,
        h_co_ci,
        Ne.symm (h_ctA.1),
        Ne.symm (h_ctA.2.1),
        Ne.symm (h_ctA.2.2.1),
        Ne.symm (h_ctA.2.2.2),
        Ne.symm (h_ctM.1),
        Ne.symm (h_ctM.2.1),
        Ne.symm (h_ctM.2.2.1),
        Ne.symm (h_ctM.2.2.2),
        Ne.symm (h_bl.1),
        Ne.symm (h_bl.2.1),
        Ne.symm (h_bl.2.2.1),
        Ne.symm (h_bl.2.2.2),
        Ne.symm (h_oic),
        Ne.symm (h_ooc),
        Ne.symm (h_oo_oi),
        Ne.symm (h_oo_ci),
        Ne.symm (h_co_oi),
        Ne.symm (h_co_ci)] <;>
      omega

/-- A hygienic email exercising both bodies, Cc, custom headers, priority
and one attachment. -/
def wellFormedEmail : Email where
  ID := ""
  From := "a@b.co"
  To := ["c@d.co"]
  Cc := ["e@f.co"]
  Bcc := []
  Subject := "Hi"
  TextBody := "line1\r\nline2"
  HTMLBody := "<p>x</p>"
  Attachments := [⟨"f.bin", "application/pdf", [0, 255, 10]⟩]
  Headers := [("X-K", "v")]
  Priority := .high
  CreatedAt := 0
  Status := "pending"
  Attempts := 0
  LastError := ""

/-- C5 witness: the amended well-formedness at a concrete hygienic email
with one attachment and both bodies. -/
theorem c5_builder_well_formed_witness :
    crlfOk (buildMessageData wellFormedEmail 3 4 "Jan" 9 "ex.com") = true
    ∧ (crlfLines (buildMessageData wellFormedEmail 3 4 "Jan" 9 "ex.com")).count
        (dashOpen (innerBoundary 4)) =
        (if wellFormedEmail.TextBody = "" then 0 else 1) +
          (if wellFormedEmail.HTMLBody = "" then 0 else 1)
    ∧ (crlfLines (buildMessageData wellFormedEmail 3 4 "Jan" 9 "ex.com")).count
        (dashClose (innerBoundary 4)) = 1
    ∧ (crlfLines (buildMessageData wellFormedEmail 3 4 "Jan" 9 "ex.com")).count
        (dashOpen (outerBoundary 3)) =
        (if wellFormedEmail.Attachments.isEmpty then 0
          else 1 + wellFormedEmail.Attachments.length)
    ∧ (crlfLines (buildMessageData wellFormedEmail 3 4 "Jan" 9 "ex.com")).count
        (dashClose (outerBoundary 3)) =
        (if wellFormedEmail.Attachments.isEmpty then 0 else 1) :=
  c5_builder_well_formed wellFormedEmail 3 4 "Jan" 9 "ex.com" (by decide)
    (by constructor <;> decide)

/-- An email that is valid for `Validate` but whose text body smuggles in
the inner boundary delimiter line of build instant `t2 = 0` and a bare LF. -/
def boundaryCollidingEmail : Email where
  ID := ""
  From := "a@b.co"
  To := ["c@d.co"]
  Cc := []
  Bcc := []
  Subject := "s"
  TextBody := "--inner_1\r\n\nx"
  HTMLBody := "h"
  Attachments := []
  Headers := []
  Priority := .normal
  CreatedAt := 0
  Status := "pending"
  Attempts := 0
  LastError := ""

set_option maxRecDepth 100000 in
/-- C5 counterexample.  For the valid email above, built at `t1 = t2 = 0`:
the generated inner boundary token occurs inside the text part's decoded
content; the inner boundary's delimiter line occurs 3 times in the stream
(never "exactly once", and not even once per declared sub-part); and the
stream contains a line terminator that is not CRLF.  The claim quantified
over every valid Email is therefore false. -/
theorem c5_builder_well_formed_cex :
    Email.Validate boundaryCollidingEmail = none
    ∧ List.IsInfix (innerBoundary 0) boundaryCollidingEmail.TextBody.data
    ∧ (crlfLines (buildMessageData boundaryCollidingEmail 0 0 "D" 7 "h")).count
        (dashOpen (innerBoundary 0)) = 3
    ∧ crlfOk (buildMessageData boundaryCollidingEmail 0 0 "D" 7 "h") = false :=
  ⟨by decide, by decide, by decide, by decide⟩


/-! ## C6 — outer content type and part structure -/

theorem mimePartsAux_skip (openL closeL : List Char)
    (pre : List (List Char)) (h : ∀ l ∈ pre, l ≠ openL)
    (rest : List (List Char)) :
    mimePartsAux openL closeL (pre ++ rest) none =
      mimePartsAux openL closeL rest none := by
  induction pre with
  | nil => rfl
  | cons l pre ih =>
    simp only [List.cons_append, mimePartsAux]
    rw [if_neg (h l (by simp))]
    exact ih fun x hx => h x (by simp [hx])

theorem mimePartsAux_accum (openL closeL : List Char)
    (mid : List (List Char)) (h : ∀ l ∈ mid, l ≠ openL ∧ l ≠ closeL) :
    ∀ (rest : List (List Char)) (cur : List (List Char)),
      mimePartsAux openL closeL (mid ++ rest) (some cur) =
        mimePartsAux openL closeL rest (some (cur ++ mid)) := by
  induction mid with
  | nil => intro rest cur; simp
  | cons l mid ih =>
    intro rest cur
    simp only [List.cons_append, mimePartsAux]
    rw [if_neg (h l (by simp)).1, if_neg (h l (by simp)).2]
    simp only [List.append_eq]
    rw [ih (fun x hx => h x (by simp [hx])) rest (cur ++ [l])]
    simp

theorem mimePartsAux_open_none (openL closeL : List Char)
    (rest : List (List Char)) :
    mimePartsAux openL closeL (openL :: rest) none =
      mimePartsAux openL closeL rest (some []) := by
  simp [mimePartsAux]

theorem mimePartsAux_open_some (openL closeL : List Char)
    (rest : List (List Char)) (cur : List (List Char)) :
    mimePartsAux openL closeL (openL :: rest) (some cur) =
      cur :: mimePartsAux openL closeL rest (some []) := by
  simp [mimePartsAux]

theorem mimePartsAux_close (openL closeL : List Char) (hne : closeL ≠ openL)
    (rest : List (List Char)) (cur : List (List Char)) :
    mimePartsAux openL closeL (closeL :: rest) (some cur) = [cur] := by
  simp only [mimePartsAux]
  rw [if_neg hne]
  simp

theorem attPartLines_ne_outer (a : Attachment) (t1 t2 : Nat) :
    ∀ l ∈ attPartLines a,
      l ≠ dashOpen (outerBoundary t1) ∧ l ≠ dashClose (outerBoundary t1) := by
  intro l hl
  have h := ne_all_of_notin l t1 t2 (attPartLines_notin a t1 t2 l hl)
  exact ⟨h.1, h.2.1⟩

theorem mimeParts_attChain (t1 t2 : Nat) (atts : List Attachment) :
    ∀ cur : List (List Char),
      mimePartsAux (dashOpen (outerBoundary t1)) (dashClose (outerBoundary t1))
          ((atts.flatMap fun a => dashOpen (outerBoundary t1) :: attPartLines a)
            ++ [dashClose (outerBoundary t1), []]) (some cur) =
        cur :: atts.map attPartLines := by
  induction atts with
  | nil =>
    intro cur
    simp only [List.flatMap_nil, List.nil_append, List.map_nil]
    exact mimePartsAux_close _ _ (Ne.symm (dashOpen_ne_dashClose _)) _ cur
  | cons a rest ih =>
    intro cur
    simp only [List.flatMap_cons, List.map_cons, List.cons_append,
      List.append_assoc]
    rw [mimePartsAux_open_some]
    rw [mimePartsAux_accum _ _ (attPartLines a)
      (attPartLines_ne_outer a t1 t2) _ []]
    rw [ih (([] : List (List Char)) ++ attPartLines a)]
    simp

theorem altLinesCore_ne_outer (e : Email) (t1 t2 : Nat)
    (htext : ∀ l ∈ crlfLines e.TextBody.data, l ∉ boundaryLines t1 t2)
    (hhtml : ∀ l ∈ crlfLines e.HTMLBody.data, l ∉ boundaryLines t1 t2) :
    ∀ l ∈ altLinesCore e (innerBoundary t2),
      l ≠ dashOpen (outerBoundary t1) ∧ l ≠ dashClose (outerBoundary t1) := by
  have hpair : ∀ l, l ∉ boundaryLines t1 t2 →
      l ≠ dashOpen (outerBoundary t1) ∧ l ≠ dashClose (outerBoundary t1) :=
    fun l h => ⟨(ne_all_of_notin l t1 t2 h).1, (ne_all_of_notin l t1 t2 h).2.1⟩
  have hOI : dashOpen (innerBoundary t2) ≠ dashOpen (outerBoundary t1) ∧
      dashOpen (innerBoundary t2) ≠ dashClose (outerBoundary t1) :=
    ⟨Ne.symm (open_outer_ne_open_inner t1 t2),
      Ne.symm (close_outer_ne_open_inner t1 t2)⟩
  rw [altLinesCore]
  refine List.forall_mem_append.mpr ⟨?_, ?_⟩
  · split
    · simp
    · refine List.forall_mem_append.mpr ⟨List.forall_mem_append.mpr ⟨?_, ?_⟩, ?_⟩
      · intro l hl
        simp only [List.mem_cons, List.not_mem_nil, or_false] at hl
        rcases hl with h | h | h <;> subst h
        · exact hOI
        · exact hpair _ (notin_boundary_first_char _ 'C' t1 t2 rfl (by decide))
        · exact hpair _ (notin_boundary_of_first _ t1 t2 (by simp))
      · exact fun l hl => hpair l (htext l hl)
      · intro l hl
        simp only [List.mem_cons, List.not_mem_nil, or_false] at hl
        subst hl
        exact hpair _ (notin_boundary_of_first _ t1 t2 (by simp))
  · split
    · simp
    · refine List.forall_mem_append.mpr ⟨List.forall_mem_append.mpr ⟨?_, ?_⟩, ?_⟩
      · intro l hl
        simp only [List.mem_cons, List.not_mem_nil, or_false] at hl
        rcases hl with h | h | h <;> subst h
        · exact hOI
        · exact hpair _ (notin_boundary_first_char _ 'C' t1 t2 rfl (by decide))
        · exact hpair _ (notin_boundary_of_first _ t1 t2 (by simp))
      · exact fun l hl => hpair l (hhtml l hl)
      · intro l hl
        simp only [List.mem_cons, List.not_mem_nil, or_false] at hl
        subst hl
        exact hpair _ (notin_boundary_of_first _ t1 t2 (by simp))


theorem mimePartsAux_step (openL closeL l : List Char) (h1 : l ≠ openL)
    (h2 : l ≠ closeL) (rest : List (List Char)) (cur : List (List Char)) :
    mimePartsAux openL closeL (l :: rest) (some cur) =
      mimePartsAux openL closeL rest (some (cur ++ [l])) := by
  simp only [mimePartsAux]
  rw [if_neg h1, if_neg h2]

theorem mimePartsAux_skip_one (openL closeL l : List Char) (h : l ≠ openL)
    (rest : List (List Char)) :
    mimePartsAux openL closeL (l :: rest) none =
      mimePartsAux openL closeL rest none := by
  simp only [mimePartsAux]
  rw [if_neg h]

theorem safe_inner_of_notin (t1 t2 : Nat) (ls : List (List Char))
    (h : ∀ l ∈ ls, l ∉ boundaryLines t1 t2) :
    ∀ l ∈ ls, l ≠ dashOpen (innerBoundary t2) ∧ l ≠ dashClose (innerBoundary t2) :=
  fun l hl => ⟨(ne_all_of_notin l t1 t2 (h l hl)).2.2.1,
    (ne_all_of_notin l t1 t2 (h l hl)).2.2.2⟩

/-- Scanning the alternative block's lines with the inner boundary yields
exactly the present sub-parts. -/
theorem innerScan (e : Email) (t1 t2 : Nat)
    (htext : ∀ l ∈ crlfLines e.TextBody.data, l ∉ boundaryLines t1 t2)
    (hhtml : ∀ l ∈ crlfLines e.HTMLBody.data, l ∉ boundaryLines t1 t2) :
    mimePartsAux (dashOpen (innerBoundary t2)) (dashClose (innerBoundary t2))
        (altLinesCore e (innerBoundary t2) ++
          [dashClose (innerBoundary t2), []]) none =
      presentSubParts e := by
  have hio := dashOpen_ne_dashClose (innerBoundary t2)
  have hts := safe_inner_of_notin t1 t2 _ htext
  have hhs := safe_inner_of_notin t1 t2 _ hhtml
  have hctT : ctTextLine ≠ dashOpen (innerBoundary t2) ∧
      ctTextLine ≠ dashClose (innerBoundary t2) := by
    have h := ne_all_of_notin ctTextLine t1 t2
      (notin_boundary_first_char _ 'C' t1 t2 rfl (by decide))
    exact ⟨h.2.2.1, h.2.2.2⟩
  have hctH : ctHtmlLine ≠ dashOpen (innerBoundary t2) ∧
      ctHtmlLine ≠ dashClose (innerBoundary t2) := by
    have h := ne_all_of_notin ctHtmlLine t1 t2
      (notin_boundary_first_char _ 'C' t1 t2 rfl (by decide))
    exact ⟨h.2.2.1, h.2.2.2⟩
  have hblk : ([] : List Char) ≠ dashOpen (innerBoundary t2) ∧
      ([] : List Char) ≠ dashClose (innerBoundary t2) := by
    have h := ne_all_of_notin [] t1 t2 (notin_boundary_of_first _ t1 t2 (by simp))
    exact ⟨h.2.2.1, h.2.2.2⟩
  rw [altLinesCore, presentSubParts]
  split_ifs with h1 h2 h2
  · show mimePartsAux _ _ (dashClose (innerBoundary t2) :: [[]]) none = []
    rw [mimePartsAux_skip_one _ _ _ (Ne.symm hio),
      mimePartsAux_skip_one _ _ _ hblk.1]
    rfl
  · show mimePartsAux _ _ (dashOpen (innerBoundary t2) :: ctHtmlLine ::
      ([] : List Char) :: ((crlfLines e.HTMLBody.data ++ [[]]) ++
        [dashClose (innerBoundary t2), []])) none = _
    rw [mimePartsAux_open_none, mimePartsAux_step _ _ _ hctH.1 hctH.2,
      mimePartsAux_step _ _ _ hblk.1 hblk.2, List.append_assoc,
      mimePartsAux_accum _ _ _ (fun l hl => hhs l hl)]
    show mimePartsAux _ _ (([] : List Char) ::
      [dashClose (innerBoundary t2), []]) (some _) = _
    rw [mimePartsAux_step _ _ _ hblk.1 hblk.2,
      mimePartsAux_close _ _ (Ne.symm hio)]
    simp
  · show mimePartsAux _ _ (dashOpen (innerBoundary t2) :: ctTextLine ::
      ([] : List Char) :: (((crlfLines e.TextBody.data ++ [[]]) ++
        ([] : List (List Char))) ++ [dashClose (innerBoundary t2), []])) none = _
    rw [mimePartsAux_open_none, mimePartsAux_step _ _ _ hctT.1 hctT.2,
      mimePartsAux_step _ _ _ hblk.1 hblk.2, List.append_nil, List.append_assoc,
      mimePartsAux_accum _ _ _ (fun l hl => hts l hl)]
    show mimePartsAux _ _ (([] : List Char) ::
      [dashClose (innerBoundary t2), []]) (some _) = _
    rw [mimePartsAux_step _ _ _ hblk.1 hblk.2,
      mimePartsAux_close _ _ (Ne.symm hio)]
    simp
  · show mimePartsAux _ _ (dashOpen (innerBoundary t2) :: ctTextLine ::
      ([] : List Char) :: (((crlfLines e.TextBody.data ++ [[]]) ++
        ([dashOpen (innerBoundary t2), ctHtmlLine, []] ++
          crlfLines e.HTMLBody.data ++ [[]])) ++
        [dashClose (innerBoundary t2), []])) none = _
    rw [mimePartsAux_open_none, mimePartsAux_step _ _ _ hctT.1 hctT.2,
      mimePartsAux_step _ _ _ hblk.1 hblk.2, List.append_assoc,
      List.append_assoc, mimePartsAux_accum _ _ _ (fun l hl => hts l hl)]
    show mimePartsAux _ _ (([] : List Char) :: dashOpen (innerBoundary t2) ::
      ctHtmlLine :: ([] : List Char) :: ((crlfLines e.HTMLBody.data ++ [[]]) ++
        [dashClose (innerBoundary t2), []])) (some _) = _
    rw [mimePartsAux_step _ _ _ hblk.1 hblk.2, mimePartsAux_open_some,
      mimePartsAux_step _ _ _ hctH.1 hctH.2,
      mimePartsAux_step _ _ _ hblk.1 hblk.2,
      List.append_assoc (crlfLines e.HTMLBody.data),
      mimePartsAux_accum _ _ _ (fun l hl => hhs l hl)]
    show _ :: mimePartsAux _ _ (([] : List Char) ::
      [dashClose (innerBoundary t2), []]) (some _) = _
    rw [mimePartsAux_step _ _ _ hblk.1 hblk.2,
      mimePartsAux_close _ _ (Ne.symm hio)]
    simp


/-! ## The first Content-Type header of the stream -/

theorem find?_skip {α : Type} (p : α → Bool) (l1 l2 : List α)
    (h : ∀ u ∈ l1, p u = false) :
    List.find? p (l1 ++ l2) = List.find? p l2 := by
  induction l1 with
  | nil => rfl
  | cons a as ih =>
    rw [List.cons_append, List.find?_cons_of_neg _ (by simp [h a (by simp)])]
    exact ih fun x hx => h x (by simp [hx])

theorem priorityUnits_no_ct (p : Priority) :
    ∀ u ∈ priorityUnits p, isCTLine u = false := by
  cases p <;> decide

theorem headerUnits_no_ct (e : Email) (dateStr : String) (msgId : Nat)
    (host : String)
    (hhdr : ∀ kv ∈ e.Headers, isCTLine (headerLineData kv) = false) :
    ∀ u ∈ headerUnits e dateStr msgId host, isCTLine u = false := by
  rw [headerUnits]
  refine List.forall_mem_append.mpr ⟨List.forall_mem_append.mpr
    ⟨List.forall_mem_append.mpr ⟨List.forall_mem_append.mpr
      ⟨List.forall_mem_append.mpr ⟨?_, ?_⟩, ?_⟩, ?_⟩, ?_⟩, ?_⟩
  · intro u hu
    simp only [List.mem_cons, List.not_mem_nil, or_false] at hu
    rcases hu with h | h <;> subst h <;> rfl
  · split
    · simp
    · intro u hu
      simp only [List.mem_cons, List.not_mem_nil, or_false] at hu
      subst hu
      rfl
  · intro u hu
    simp only [List.mem_cons, List.not_mem_nil, or_false] at hu
    rcases hu with h | h | h <;> subst h <;> rfl
  · intro u hu
    obtain ⟨kv, hkv, rfl⟩ := List.mem_map.mp hu
    exact hhdr kv hkv
  · exact priorityUnits_no_ct e.Priority
  · intro u hu
    simp only [List.mem_cons, List.not_mem_nil, or_false] at hu
    subst hu
    rfl

theorem firstCT_noatt (e : Email) (t1 t2 : Nat) (dateStr : String)
    (msgId : Nat) (host : String) (hyg : BuildHygiene e t1 t2 dateStr host)
    (hhdr : ∀ kv ∈ e.Headers, isCTLine (headerLineData kv) = false)
    (hempty : e.Attachments.isEmpty = true) :
    firstCTLine (crlfLines (buildMessageData e t1 t2 dateStr msgId host)) =
      some (ctAltLine (innerBoundary t2)) := by
  rw [firstCTLine, crlfLines_buildMessage e t1 t2 dateStr msgId host hyg,
    List.append_assoc,
    find?_skip _ _ _ (headerUnits_no_ct e dateStr msgId host hhdr),
    bodyLines, if_pos hempty]
  show List.find? isCTLine (ctAltLine (innerBoundary t2) :: _) = _
  rw [List.find?_cons_of_pos _
    (show isCTLine (ctAltLine (innerBoundary t2)) = true from rfl)]

theorem firstCT_att (e : Email) (t1 t2 : Nat) (dateStr : String)
    (msgId : Nat) (host : String) (hyg : BuildHygiene e t1 t2 dateStr host)
    (hhdr : ∀ kv ∈ e.Headers, isCTLine (headerLineData kv) = false)
    (hfull : e.Attachments.isEmpty = false) :
    firstCTLine (crlfLines (buildMessageData e t1 t2 dateStr msgId host)) =
      some (ctMixedLine (outerBoundary t1)) := by
  rw [firstCTLine, crlfLines_buildMessage e t1 t2 dateStr msgId host hyg,
    List.append_assoc,
    find?_skip _ _ _ (headerUnits_no_ct e dateStr msgId host hhdr),
    bodyLines, if_neg (by simp [hfull])]
  show List.find? isCTLine (ctMixedLine (outerBoundary t1) :: _) = _
  rw [List.find?_cons_of_pos _
    (show isCTLine (ctMixedLine (outerBoundary t1)) = true from rfl)]

/-! ## The part decomposition of the full stream -/

theorem mimeScan_noatt (e : Email) (t1 t2 : Nat) (dateStr : String)
    (msgId : Nat) (host : String) (hyg : BuildHygiene e t1 t2 dateStr host)
    (hempty : e.Attachments.isEmpty = true) :
    mimeParts (innerBoundary t2)
        (crlfLines (buildMessageData e t1 t2 dateStr msgId host)) =
      presentSubParts e := by
  have hhead : ∀ u ∈ headerUnits e dateStr msgId host,
      u ≠ dashOpen (innerBoundary t2) :=
    fun u hu => (ne_all_of_notin u t1 t2
      (headerUnits_clean e dateStr msgId host t1 t2 hyg u hu).2).2.2.1
  have hct : ctAltLine (innerBoundary t2) ≠ dashOpen (innerBoundary t2) :=
    (ne_all_of_notin _ t1 t2
      (notin_boundary_first_char _ 'C' t1 t2 rfl (by decide))).2.2.1
  have hbl : ([] : List Char) ≠ dashOpen (innerBoundary t2) :=
    (ne_all_of_notin [] t1 t2
      (notin_boundary_of_first _ t1 t2 (by simp))).2.2.1
  rw [mimeParts, crlfLines_buildMessage e t1 t2 dateStr msgId host hyg,
    bodyLines, if_pos hempty, List.append_assoc,
    mimePartsAux_skip _ _ _ hhead]
  show mimePartsAux _ _ (ctAltLine (innerBoundary t2) :: ([] : List Char) ::
    ((altLinesCore e (innerBoundary t2) ++ [dashClose (innerBoundary t2)]) ++
      [[]])) none = _
  rw [mimePartsAux_skip_one _ _ _ hct, mimePartsAux_skip_one _ _ _ hbl,
    List.append_assoc]
  exact innerScan e t1 t2 hyg.text_lines hyg.html_lines

theorem mimeScan_att (e : Email) (t1 t2 : Nat) (dateStr : String)
    (msgId : Nat) (host : String) (hyg : BuildHygiene e t1 t2 dateStr host)
    (hfull : e.Attachments.isEmpty = false) :
    mimeParts (outerBoundary t1)
        (crlfLines (buildMessageData e t1 t2 dateStr msgId host)) =
      altBlockLines e (innerBoundary t2) ::
        e.Attachments.map attPartLines := by
  have hhead : ∀ u ∈ headerUnits e dateStr msgId host,
      u ≠ dashOpen (outerBoundary t1) :=
    fun u hu => (ne_all_of_notin u t1 t2
      (headerUnits_clean e dateStr msgId host t1 t2 hyg u hu).2).1
  have hpair : ∀ l, l ∉ boundaryLines t1 t2 →
      l ≠ dashOpen (outerBoundary t1) ∧ l ≠ dashClose (outerBoundary t1) :=
    fun l h => ⟨(ne_all_of_notin l t1 t2 h).1, (ne_all_of_notin l t1 t2 h).2.1⟩
  have hctM := hpair (ctMixedLine (outerBoundary t1))
    (notin_boundary_first_char _ 'C' t1 t2 rfl (by decide))
  have hca := hpair (ctAltLine (innerBoundary t2))
    (notin_boundary_first_char _ 'C' t1 t2 rfl (by decide))
  have hbl := hpair [] (notin_boundary_of_first _ t1 t2 (by simp))
  have hci : dashClose (innerBoundary t2) ≠ dashOpen (outerBoundary t1) ∧
      dashClose (innerBoundary t2) ≠ dashClose (outerBoundary t1) :=
    ⟨Ne.symm (open_outer_ne_close_inner t1 t2),
      Ne.symm (close_outer_ne_close_inner t1 t2)⟩
  rw [mimeParts, crlfLines_buildMessage e t1 t2 dateStr msgId host hyg,
    bodyLines, if_neg (by simp [hfull]), List.append_assoc,
    mimePartsAux_skip _ _ _ hhead]
  show mimePartsAux _ _ (ctMixedLine (outerBoundary t1) :: ([] : List Char) ::
    dashOpen (outerBoundary t1) :: ctAltLine (innerBoundary t2) ::
    ([] : List Char) ::
    ((((altLinesCore e (innerBoundary t2) ++
          [dashClose (innerBoundary t2), []]) ++
        e.Attachments.flatMap
          (fun a => dashOpen (outerBoundary t1) :: attPartLines a)) ++
      [dashClose (outerBoundary t1)]) ++ [[]])) none = _
  rw [mimePartsAux_skip_one _ _ _ hctM.1, mimePartsAux_skip_one _ _ _ hbl.1,
    mimePartsAux_open_none, mimePartsAux_step _ _ _ hca.1 hca.2,
    mimePartsAux_step _ _ _ hbl.1 hbl.2, List.append_assoc,
    List.append_assoc, List.append_assoc,
    mimePartsAux_accum _ _ _
      (altLinesCore_ne_outer e t1 t2 hyg.text_lines hyg.html_lines)]
  show mimePartsAux _ _ (dashClose (innerBoundary t2) :: ([] : List Char) ::
    (e.Attachments.flatMap
        (fun a => dashOpen (outerBoundary t1) :: attPartLines a) ++
      [dashClose (outerBoundary t1), []])) (some _) = _
  rw [mimePartsAux_step _ _ _ hci.1 hci.2,
    mimePartsAux_step _ _ _ hbl.1 hbl.2,
    mimeParts_attChain t1 t2 e.Attachments]
  simp [altBlockLines, altLinesCore]


/-- C6.  For a valid email built under hygienic inputs whose custom headers
are not Content-Type lines: with zero attachments the first Content-Type
header of the stream declares `multipart/alternative` (never
`multipart/mixed`) and the parts with respect to the inner boundary are
exactly the sub-parts whose body is present; with one or more attachments
the first Content-Type header declares `multipart/mixed`, the first part
with respect to the outer boundary is the `multipart/alternative`
text/HTML block, and the subsequent parts are the attachment parts in
order. -/
theorem c6_content_type_structure (e : Email) (t1 t2 : Nat) (dateStr : String)
    (msgId : Nat) (host : String) (hv : e.Validate = none)
    (hyg : BuildHygiene e t1 t2 dateStr host)
    (hhdr : ∀ kv ∈ e.Headers, isCTLine (headerLineData kv) = false) :
    (e.Attachments.isEmpty = true →
      firstCTLine (crlfLines (buildMessageData e t1 t2 dateStr msgId host)) =
          some (ctAltLine (innerBoundary t2)) ∧
        mimeParts (innerBoundary t2)
            (crlfLines (buildMessageData e t1 t2 dateStr msgId host)) =
          presentSubParts e) ∧
    (e.Attachments.isEmpty = false →
      firstCTLine (crlfLines (buildMessageData e t1 t2 dateStr msgId host)) =
          some (ctMixedLine (outerBoundary t1)) ∧
        mimeParts (outerBoundary t1)
            (crlfLines (buildMessageData e t1 t2 dateStr msgId host)) =
          altBlockLines e (innerBoundary t2) ::
            e.Attachments.map attPartLines) :=
  ⟨fun h => ⟨firstCT_noatt e t1 t2 dateStr msgId host hyg hhdr h,
      mimeScan_noatt e t1 t2 dateStr msgId host hyg h⟩,
    fun h => ⟨firstCT_att e t1 t2 dateStr msgId host hyg hhdr h,
      mimeScan_att e t1 t2 dateStr msgId host hyg h⟩⟩

set_option maxRecDepth 400000 in
/-- C6 witness: the attachment branch at a concrete hygienic email with
one attachment, both bodies, a Cc and a custom header. -/
theorem c6_content_type_structure_witness :
    wellFormedEmail.Attachments.isEmpty = false ∧
    (firstCTLine
          (crlfLines (buildMessageData wellFormedEmail 3 4 "Jan" 9 "ex.com")) =
        some (ctMixedLine (outerBoundary 3)) ∧
      mimeParts (outerBoundary 3)
          (crlfLines (buildMessageData wellFormedEmail 3 4 "Jan" 9 "ex.com")) =
        altBlockLines wellFormedEmail (innerBoundary 4) ::
          wellFormedEmail.Attachments.map attPartLines) :=
  ⟨by decide,
    (c6_content_type_structure wellFormedEmail 3 4 "Jan" 9 "ex.com" (by decide)
      (by constructor <;> decide) (by decide)).2 (by decide)⟩

set_option maxRecDepth 400000 in
/-- C6 counterexample.  The valid zero-attachment email whose text body
embeds the inner delimiter line of build instant `t2 = 0` yields three
parts with respect to the inner boundary, not the two sub-parts whose
body is present: the claim quantified over every valid Email is false
without the hygiene conditions. -/
theorem c6_content_type_structure_cex :
    Email.Validate boundaryCollidingEmail = none
    ∧ boundaryCollidingEmail.Attachments.isEmpty = true
    ∧ (mimeParts (innerBoundary 0)
        (crlfLines
          (buildMessageData boundaryCollidingEmail 0 0 "D" 7 "h"))).length = 3
    ∧ (presentSubParts boundaryCollidingEmail).length = 2 :=
  ⟨by decide, by decide, by decide, by decide⟩


/-! ## C7 — attachment round-trip -/

theorem flatMap_seg_of_seg {α β : Type} (f : α → List β)
    (l1 l2 : List α) (h : List.IsInfix l1 l2) :
    List.IsInfix (l1.flatMap f) (l2.flatMap f) := by
  obtain ⟨s, t, hst⟩ := h
  exact ⟨s.flatMap f, t.flatMap f, by rw [← hst]; simp [List.flatMap_append]⟩

/-- The units of a member attachment form a contiguous segment of the
builder's unit list. -/
theorem attUnits_seg (e : Email) (t1 t2 : Nat) (dateStr : String)
    (msgId : Nat) (host : String) (att : Attachment)
    (hmem : att ∈ e.Attachments) :
    List.IsInfix (attUnits (outerBoundary t1) att)
      (buildUnits e t1 t2 dateStr msgId host) := by
  obtain ⟨s, t, hst⟩ := List.append_of_mem hmem
  have hne : e.Attachments.isEmpty = false := by rw [hst]; simp
  rw [buildUnits, bodyUnits, if_neg (by simp [hne]), hst]
  refine ⟨headerUnits e dateStr msgId host ++
    ([ctMixedLine (outerBoundary t1), [], dashOpen (outerBoundary t1),
        ctAltLine (innerBoundary t2), []] ++
      altSubUnits e (innerBoundary t2) ++
      [dashClose (innerBoundary t2), []] ++
      s.flatMap (attUnits (outerBoundary t1))),
    t.flatMap (attUnits (outerBoundary t1)) ++
      [dashClose (outerBoundary t1)], ?_⟩
  simp [List.flatMap_append, List.append_assoc]

/-- C7.  For every attachment of a valid email: every base64 line of its
part is at most 76 characters long; concatenating those lines and
base64-decoding reproduces the attachment bytes exactly; and the
attachment's part occurs verbatim inside the built message. -/
theorem c7_attachment_roundtrip (e : Email) (t1 t2 : Nat) (dateStr : String)
    (msgId : Nat) (host : String) (att : Attachment) (hv : e.Validate = none)
    (hmem : att ∈ e.Attachments) (hbytes : ∀ b ∈ att.Data, b < 256) :
    (∀ line ∈ chunks76 (b64Encode att.Data), line.length ≤ 76)
    ∧ b64Decode ((chunks76 (b64Encode att.Data)).flatMap id) = att.Data
    ∧ List.IsInfix
        ((attUnits (outerBoundary t1) att).flatMap fun u => u ++ ['\r', '\n'])
        (buildMessageData e t1 t2 dateStr msgId host) :=
  ⟨chunks76_short _,
    by rw [chunks76_join]; exact b64Decode_b64Encode att.Data hbytes,
    flatMap_seg_of_seg _ _ _
      (attUnits_seg e t1 t2 dateStr msgId host att hmem)⟩

set_option maxRecDepth 400000 in
/-- C7 witness: the round-trip at the concrete email's single attachment
`f.bin` with bytes `[0, 255, 10]`. -/
theorem c7_attachment_roundtrip_witness :
    (∀ line ∈ chunks76 (b64Encode
        (⟨"f.bin", "application/pdf", [0, 255, 10]⟩ : Attachment).Data),
      line.length ≤ 76)
    ∧ b64Decode ((chunks76 (b64Encode
        (⟨"f.bin", "application/pdf", [0, 255, 10]⟩ : Attachment).Data)).flatMap
          id) =
      (⟨"f.bin", "application/pdf", [0, 255, 10]⟩ : Attachment).Data
    ∧ List.IsInfix
        ((attUnits (outerBoundary 3)
            (⟨"f.bin", "application/pdf", [0, 255, 10]⟩ : Attachment)).flatMap
          fun u => u ++ ['\r', '\n'])
        (buildMessageData wellFormedEmail 3 4 "Jan" 9 "ex.com") :=
  c7_attachment_roundtrip wellFormedEmail 3 4 "Jan" 9 "ex.com"
    ⟨"f.bin", "application/pdf", [0, 255, 10]⟩
    (by decide) (by decide) (by decide)

end GoSmtp
